import Mathlib

/-!
Verification of the checkpoint-conversion subsystem of the modelzoo
repository: rotary interleave / de-interleave (llama.py), fused QKV
split / merge (falcon_40b.py), the streaming sharded HuggingFace
writer and the hierarchical CS writer (streaming_checkpoints.py),
size-string parsing, and the GQA config check.

Tensors are embedded as (nested) lists.  All of the tensor transforms
in scope permute or regroup whole slices along one dimension, so the
entries of the innermost manipulated dimension are kept abstract (a
type parameter): for a weight tensor an entry is a row vector, for a
bias tensor it is a scalar.  A PyTorch `view`/`reshape` between a flat
dimension and a `(g, d)` factored dimension is embedded as
`chunk`/`flatten`; the interleaving `reshape / permute / reshape`
composite is embedded by the list functions `interleavePairs`, `evens`
and `odds`, which compute the realized row permutation of those calls.
-/

namespace ModelZoo

/-- Pairwise interleaving of two lists: the result of flattening the
transpose of the two rows, i.e. the row permutation realized by
`reshape(2, m) . permute . reshape(2m)` in `interleave_helper`. -/
def interleavePairs (h1 h2 : List α) : List α :=
  (List.zipWith (fun a b => [a, b]) h1 h2).flatten

/-- Elements at even indices (0, 2, 4, ...) of a list. -/
def evens : List α → List α
  | [] => []
  | [a] => [a]
  | a :: _ :: rest => a :: evens rest

/-- Elements at odd indices (1, 3, 5, ...) of a list. -/
def odds : List α → List α
  | [] => []
  | [_] => []
  | _ :: b :: rest => b :: odds rest

theorem evens_interleavePairs :
    ∀ (h1 h2 : List α), h1.length = h2.length →
      evens (interleavePairs h1 h2) = h1 := by
  intro h1
  induction h1 with
  | nil =>
    intro h2 h
    cases h2 with
    | nil => rfl
    | cons b bs => simp at h
  | cons a as ih =>
    intro h2 h
    cases h2 with
    | nil => simp at h
    | cons b bs =>
      show evens (a :: b :: interleavePairs as bs) = a :: as
      rw [evens]
      rw [ih bs (by simpa using h)]

theorem odds_interleavePairs :
    ∀ (h1 h2 : List α), h1.length = h2.length →
      odds (interleavePairs h1 h2) = h2 := by
  intro h1
  induction h1 with
  | nil =>
    intro h2 h
    cases h2 with
    | nil => rfl
    | cons b bs => simp at h
  | cons a as ih =>
    intro h2 h
    cases h2 with
    | nil => simp at h
    | cons b bs =>
      show odds (a :: b :: interleavePairs as bs) = b :: bs
      rw [odds]
      rw [ih bs (by simpa using h)]

theorem interleavePairs_evens_odds :
    ∀ (xs : List α), xs.length % 2 = 0 →
      interleavePairs (evens xs) (odds xs) = xs
  | [], _ => rfl
  | [a], h => by simp at h
  | a :: b :: rest, h => by
    rw [evens, odds]
    have hrest : rest.length % 2 = 0 := by
      simp only [List.length_cons] at h
      omega
    show a :: b :: interleavePairs (evens rest) (odds rest) = a :: b :: rest
    rw [interleavePairs_evens_odds rest hrest]

theorem interleavePairs_length (h1 h2 : List α) (h : h1.length = h2.length) :
    (interleavePairs h1 h2).length = h1.length + h2.length := by
  induction h1 generalizing h2 with
  | nil => cases h2 with
    | nil => rfl
    | cons b bs => simp at h
  | cons a as ih =>
    cases h2 with
    | nil => simp at h
    | cons b bs =>
      have := ih bs (by simpa using h)
      show (a :: b :: interleavePairs as bs).length = _
      simp only [List.length_cons, this]
      omega

theorem evens_length :
    ∀ (xs : List α), (evens xs).length = (xs.length + 1) / 2
  | [] => by simp [evens]
  | [_] => by simp [evens]
  | _ :: _ :: rest => by
    rw [evens]
    simp only [List.length_cons, evens_length rest]
    omega

theorem odds_length :
    ∀ (xs : List α), (odds xs).length = xs.length / 2
  | [] => by simp [odds]
  | [_] => by simp [odds]
  | _ :: _ :: rest => by
    rw [odds]
    simp only [List.length_cons, odds_length rest]
    omega

/-- One row group (one attention head) of `interleave_helper` from
`Converter_LlamaAttention_HF_CS` (llama.py, lines 153-177): the first
`rotary_dim` entries of the head are viewed as two contiguous halves
which get interleaved pairwise; the trailing entries pass through
unchanged.  PyTorch rejects the underlying reshape when the rotary
slice has odd length, so the meaningful domain has even `rotary_dim`. -/
def ihRow (rotary_dim : Nat) (head : List α) : List α :=
  interleavePairs ((head.take rotary_dim).take (rotary_dim / 2))
      ((head.take rotary_dim).drop (rotary_dim / 2))
    ++ head.drop rotary_dim

/-- One row group of `reverse_interleave_helper` (llama.py, lines
179-205): the first `rotary_dim` entries are de-interleaved back into
their two contiguous halves (even positions first, odd positions
second); the trailing entries pass through unchanged. -/
def rihRow (rotary_dim : Nat) (head : List α) : List α :=
  evens (head.take rotary_dim) ++ odds (head.take rotary_dim)
    ++ head.drop rotary_dim

theorem rihRow_ihRow (rd : Nat) (head : List α)
    (hev : rd % 2 = 0) (hle : rd ≤ head.length) :
    rihRow rd (ihRow rd head) = head := by
  have hTlen : (head.take rd).length = rd := by
    rw [List.length_take]; omega
  have hlen1 : ((head.take rd).take (rd / 2)).length = rd / 2 := by
    rw [List.length_take, hTlen]; omega
  have hlen2 : ((head.take rd).drop (rd / 2)).length = rd / 2 := by
    rw [List.length_drop, hTlen]; omega
  have heq : ((head.take rd).take (rd / 2)).length
      = ((head.take rd).drop (rd / 2)).length := by
    rw [hlen1, hlen2]
  have hA : (interleavePairs ((head.take rd).take (rd / 2))
      ((head.take rd).drop (rd / 2))).length = rd := by
    rw [interleavePairs_length _ _ heq, hlen1, hlen2]; omega
  rw [ihRow, rihRow]
  rw [List.take_left' hA, List.drop_left' hA]
  rw [evens_interleavePairs _ _ heq, odds_interleavePairs _ _ heq]
  rw [List.take_append_drop, List.take_append_drop]

theorem ihRow_rihRow (rd : Nat) (head : List α)
    (hev : rd % 2 = 0) (hle : rd ≤ head.length) :
    ihRow rd (rihRow rd head) = head := by
  have hTlen : (head.take rd).length = rd := by
    rw [List.length_take]; omega
  have hE : (evens (head.take rd)).length = rd / 2 := by
    rw [evens_length, hTlen]; omega
  have hO : (odds (head.take rd)).length = rd / 2 := by
    rw [odds_length, hTlen]
  have hEO : (evens (head.take rd) ++ odds (head.take rd)).length = rd := by
    rw [List.length_append, hE, hO]; omega
  rw [rihRow, ihRow]
  rw [List.take_left' hEO, List.drop_left' hEO]
  rw [List.take_left' hE, List.drop_left' hE]
  rw [interleavePairs_evens_odds _ (by rw [hTlen]; exact hev)]
  rw [List.take_append_drop]

theorem ihRow_length (rd : Nat) (head : List α)
    (hev : rd % 2 = 0) (hle : rd ≤ head.length) :
    (ihRow rd head).length = head.length := by
  have h1 : ((head.take rd).take (rd / 2)).length = rd / 2 := by
    rw [List.length_take, List.length_take]; omega
  have h2 : ((head.take rd).drop (rd / 2)).length = rd / 2 := by
    rw [List.length_drop, List.length_take]; omega
  rw [ihRow, List.length_append,
    interleavePairs_length _ _ (by rw [h1, h2]), h1, h2, List.length_drop]
  omega

theorem rihRow_length (rd : Nat) (head : List α)
    (hev : rd % 2 = 0) (hle : rd ≤ head.length) :
    (rihRow rd head).length = head.length := by
  have hTlen : (head.take rd).length = rd := by
    rw [List.length_take]; omega
  rw [rihRow, List.length_append, List.length_append, evens_length,
    odds_length, hTlen, List.length_drop]
  omega

/-- Chunk a flat list into consecutive pieces of `d` elements: the
embedding of a PyTorch `view`/`reshape` from a flat dimension of size
`g * d` to shape `(g, d)`. -/
def chunk (d : Nat) : List α → List (List α)
  | [] => []
  | x :: xs =>
    if d = 0 then []
    else (x :: xs).take d :: chunk d ((x :: xs).drop d)
termination_by l => l.length
decreasing_by
  simp only [List.length_drop, List.length_cons]
  omega

theorem flatten_chunk (d : Nat) (hd : 0 < d) :
    ∀ (xs : List α), (chunk d xs).flatten = xs
  | [] => by simp [chunk]
  | x :: xs => by
    rw [chunk]
    rw [if_neg (by omega)]
    rw [List.flatten_cons]
    rw [flatten_chunk d hd ((x :: xs).drop d)]
    exact List.take_append_drop d (x :: xs)
termination_by xs => xs.length
decreasing_by
  simp only [List.length_drop, List.length_cons]
  omega

theorem chunk_flatten (d : Nat) (hd : 0 < d) :
    ∀ (L : List (List α)), (∀ l ∈ L, l.length = d) →
      chunk d L.flatten = L := by
  intro L
  induction L with
  | nil => intro _; simp [chunk]
  | cons l rest ih =>
    intro hmem
    have hl : l.length = d := hmem l (by simp)
    have hlne : l ≠ [] := by
      intro h0
      rw [h0] at hl
      simp at hl
      omega
    rw [List.flatten_cons]
    rcases List.exists_cons_of_ne_nil hlne with ⟨y, ys, hy⟩
    subst hy
    rw [List.cons_append, chunk, if_neg (by omega), ← List.cons_append,
      List.take_left' hl, List.drop_left' hl]
    rw [ih (fun x hx => hmem x (by simp [hx]))]

theorem chunk_mem_length (d : Nat) (hd : 0 < d) :
    ∀ (xs : List α), d ∣ xs.length → ∀ l ∈ chunk d xs, l.length = d
  | [] => by
    intro _ l hl
    simp [chunk] at hl
  | x :: xs => by
    intro hdvd l hl
    rw [chunk, if_neg (by omega)] at hl
    have hge : d ≤ (x :: xs).length := by
      rcases hdvd with ⟨k, hk⟩
      rcases Nat.eq_zero_or_pos k with hk0 | hk0
      · rw [hk0, Nat.mul_zero] at hk
        simp at hk
      · calc d = d * 1 := by omega
          _ ≤ d * k := Nat.mul_le_mul_left d hk0
          _ = (x :: xs).length := hk.symm
    rcases List.mem_cons.mp hl with hl | hl
    · rw [hl, List.length_take]; omega
    · have hdvd2 : d ∣ ((x :: xs).drop d).length := by
        rw [List.length_drop]
        exact Nat.dvd_sub' hdvd ⟨1, by omega⟩
      exact chunk_mem_length d hd ((x :: xs).drop d) hdvd2 l hl
termination_by xs => xs.length
decreasing_by
  simp only [List.length_drop, List.length_cons]
  omega

theorem length_chunk (d : Nat) (hd : 0 < d) :
    ∀ (xs : List α), d ∣ xs.length → (chunk d xs).length = xs.length / d
  | [] => by intro _; simp [chunk]
  | x :: xs => by
    intro hdvd
    rw [chunk, if_neg (by omega)]
    have hdvd2 : d ∣ ((x :: xs).drop d).length := by
      rw [List.length_drop]
      exact Nat.dvd_sub' hdvd ⟨1, by omega⟩
    rw [List.length_cons, length_chunk d hd ((x :: xs).drop d) hdvd2]
    rw [List.length_drop]
    rcases hdvd with ⟨k, hk⟩
    have hk0 : 0 < k := by
      rcases Nat.eq_zero_or_pos k with h0 | h0
      · rw [h0, Nat.mul_zero] at hk; simp at hk
      · exact h0
    rw [hk]
    rcases k with _ | k2
    · omega
    · rw [Nat.mul_succ, Nat.add_sub_cancel, Nat.mul_div_cancel_left _ hd,
        Nat.add_div_right _ hd, Nat.mul_div_cancel_left _ hd]
termination_by xs => xs.length
decreasing_by
  simp only [List.length_drop, List.length_cons]
  omega

theorem flatten_map_flatten (L : List (List (List α))) :
    (L.map List.flatten).flatten = L.flatten.flatten := by
  induction L with
  | nil => rfl
  | cons l rest ih => simp [ih]

end ModelZoo

namespace ModelZoo.Llama

/-- Embedding of `Converter_LlamaAttention_HF_CS.interleave_helper`
(llama.py, lines 153-177): the input tensor is viewed as
`(heads, d, trailing)`; each head of `d` abstract rows is interleaved
on its leading `rotary_dim` rows.  The trailing tensor dimension
(present for weights, absent for biases) is abstracted into the row
type. -/
def interleave_helper (rotary_dim : Nat) (t : List (List α)) :
    List (List α) :=
  t.map (ModelZoo.ihRow rotary_dim)

/-- Embedding of
`Converter_LlamaAttention_HF_CS.reverse_interleave_helper` (llama.py,
lines 179-205): the flat tensor is reshaped to
`(num_heads, -1, trailing)` and each head is de-interleaved on its
leading `rotary_dim` rows. -/
def reverse_interleave_helper (rotary_dim num_heads : Nat) (t : List α) :
    List (List α) :=
  (ModelZoo.chunk (t.length / num_heads) t).map (ModelZoo.rihRow rotary_dim)

/-- Embedding of
`Converter_LlamaAttention_HF_CS.convert_with_interleaving_query`
(llama.py, lines 71-99) on a single projection tensor:
`from_index = 0` views the tensor as `(num_heads, size // num_heads,
...)`, applies `interleave_helper` and views the result back to the
flat initial shape; `from_index = 1` applies
`reverse_interleave_helper` and views back.  The view back to
`initial_shape` is the flattening. -/
def convert_with_interleaving_query (from_index num_heads rotary_dim : Nat)
    (t : List α) : List α :=
  if from_index = 0 then
    (interleave_helper rotary_dim
      (ModelZoo.chunk (t.length / num_heads) t)).flatten
  else
    (reverse_interleave_helper rotary_dim num_heads t).flatten

/-- C1.  Rotary interleave is self-inverse: for every even rotary
dimension, head (or key/value-group) count `num_heads ≥ 1` and tensor
with `num_heads` heads of `d ≥ rotary_dim` rows each, applying
`interleave_helper` and then `reverse_interleave_helper` (including
the flat-to-heads reshapes done by `convert_with_interleaving_query`
in each direction) returns the original tensor exactly: converting a
`q_proj`/`k_proj` tensor HF-to-CS (`from_index = 0`) and then CS-to-HF
(`from_index = 1`) reproduces it bit-exactly. -/
theorem interleave_involution (num_heads rotary_dim d : Nat) (t : List α)
    (hn : 1 ≤ num_heads) (hev : rotary_dim % 2 = 0) (hrd : rotary_dim ≤ d)
    (hlen : t.length = num_heads * d) :
    convert_with_interleaving_query 1 num_heads rotary_dim
        (convert_with_interleaving_query 0 num_heads rotary_dim t) = t ∧
      reverse_interleave_helper rotary_dim num_heads
        ((interleave_helper rotary_dim (ModelZoo.chunk d t)).flatten)
      = ModelZoo.chunk d t := by
  rcases Nat.eq_zero_or_pos d with hd0 | hd0
  · subst hd0
    simp only [Nat.mul_zero] at hlen
    have ht : t = [] := List.length_eq_zero.mp hlen
    subst ht
    constructor
    · simp [convert_with_interleaving_query, interleave_helper,
        reverse_interleave_helper, ModelZoo.chunk]
    · simp [interleave_helper, reverse_interleave_helper, ModelZoo.chunk]
  have hdiv : t.length / num_heads = d := by
    rw [hlen, Nat.mul_div_cancel_left d (by omega)]
  have hdvd : d ∣ t.length := ⟨num_heads, by rw [hlen, Nat.mul_comm]⟩
  have hchunk_mem := ModelZoo.chunk_mem_length d hd0 t hdvd
  have hint_mem : ∀ l ∈ interleave_helper rotary_dim (ModelZoo.chunk d t),
      l.length = d := by
    intro l hl
    rw [interleave_helper] at hl
    rcases List.mem_map.mp hl with ⟨head, hhead, hmap⟩
    have hheadlen := hchunk_mem head hhead
    rw [← hmap, ModelZoo.ihRow_length rotary_dim head hev (by omega)]
    exact hheadlen
  have hjoinlen :
      ((interleave_helper rotary_dim (ModelZoo.chunk d t)).flatten).length
      = t.length := by
    conv_rhs => rw [← ModelZoo.flatten_chunk d hd0 t]
    rw [List.length_flatten, List.length_flatten]
    congr 1
    rw [interleave_helper, List.map_map]
    apply List.map_congr_left
    intro head hhead
    have hheadlen := hchunk_mem head hhead
    show (ModelZoo.ihRow rotary_dim head).length = head.length
    exact ModelZoo.ihRow_length rotary_dim head hev (by omega)
  have hkey : reverse_interleave_helper rotary_dim num_heads
      ((interleave_helper rotary_dim (ModelZoo.chunk d t)).flatten)
      = ModelZoo.chunk d t := by
    rw [reverse_interleave_helper, hjoinlen, hdiv]
    rw [ModelZoo.chunk_flatten d hd0 _ hint_mem]
    rw [interleave_helper, List.map_map]
    have hcomp : ∀ head ∈ ModelZoo.chunk d t,
        (ModelZoo.rihRow rotary_dim ∘ ModelZoo.ihRow rotary_dim) head
        = head := by
      intro head hhead
      have hheadlen := hchunk_mem head hhead
      show ModelZoo.rihRow rotary_dim (ModelZoo.ihRow rotary_dim head) = head
      exact ModelZoo.rihRow_ihRow rotary_dim head hev (by omega)
    calc (ModelZoo.chunk d t).map
          (ModelZoo.rihRow rotary_dim ∘ ModelZoo.ihRow rotary_dim)
        = (ModelZoo.chunk d t).map id := List.map_congr_left hcomp
      _ = ModelZoo.chunk d t := List.map_id _
  refine ⟨?_, hkey⟩
  rw [convert_with_interleaving_query, convert_with_interleaving_query]
  rw [if_pos rfl, if_neg (by omega : (1 : Nat) ≠ 0)]
  rw [hdiv]
  rw [hkey]
  exact ModelZoo.flatten_chunk d hd0 t

/-- Witness for C1 at a concrete input: 2 heads, 3 rows per head,
rotary dimension 2. -/
theorem interleave_involution_witness :
    convert_with_interleaving_query 1 2 2
        (convert_with_interleaving_query 0 2 2 [0, 1, 2, 3, 4, 5])
      = [0, 1, 2, 3, 4, 5] ∧
      reverse_interleave_helper 2 2
        ((interleave_helper 2 (ModelZoo.chunk 3 [0, 1, 2, 3, 4, 5])).flatten)
      = ModelZoo.chunk 3 [0, 1, 2, 3, 4, 5] :=
  interleave_involution 2 2 3 [0, 1, 2, 3, 4, 5] (by decide) (by decide)
    (by decide) (by decide)

end ModelZoo.Llama

namespace ModelZoo

/-- Reshape a flat list to shape `(-1, group_size, inner)`: the
embedding of a PyTorch reshape to three dimensions.  The callers
guard divisibility, under which the leading dimension equals the
requested group count. -/
def reshape3 (group_size inner : Nat) (t : List α) : List (List (List α)) :=
  (chunk (group_size * inner) t).map (chunk inner)

/-- Flatten a three-dimensional tensor back to a flat list: the
embedding of `reshape(-1)` / `reshape(-1, dim)`. -/
def flat3 (t : List (List (List α))) : List α :=
  t.flatten.flatten

/-- `torch.cat` along dimension 1 of three tensors with equal leading
dimension. -/
def catDim1 : List (List β) → List (List β) → List (List β) → List (List β)
  | a :: as, b :: bs, c :: cs => (a ++ b ++ c) :: catDim1 as bs cs
  | _, _, _ => []

theorem flatten_length_const (L : List (List α)) (d : Nat)
    (h : ∀ l ∈ L, l.length = d) : L.flatten.length = L.length * d := by
  induction L with
  | nil => simp
  | cons l rest ih =>
    rw [List.flatten_cons, List.length_append, List.length_cons,
      h l (by simp), ih (fun x hx => h x (by simp [hx]))]
    ring

theorem chunk_eq_single (d : Nat) (hd : 0 < d) (xs : List α)
    (h : xs.length = d) : chunk d xs = [xs] := by
  have := chunk_flatten d hd [xs] (by simpa using h)
  simpa using this

theorem reshape3_of_flat3 (gs hs : Nat) (hhs : 0 < hs) (hgs : 0 < gs)
    (M : List (List (List α))) (hgrp : ∀ grp ∈ M, grp.length = gs)
    (hhead : ∀ grp ∈ M, ∀ hd ∈ grp, hd.length = hs) :
    reshape3 gs hs (flat3 M) = M := by
  have hflat : ∀ grp ∈ M, grp.flatten.length = gs * hs := by
    intro grp hg
    rw [flatten_length_const grp hs (hhead grp hg), hgrp grp hg]
  rw [flat3, ← flatten_map_flatten, reshape3]
  rw [chunk_flatten (gs * hs) (by positivity) (M.map List.flatten)
    (by
      intro l hl
      rcases List.mem_map.mp hl with ⟨grp, hgmem, hgeq⟩
      rw [← hgeq]
      exact hflat grp hgmem)]
  rw [List.map_map]
  have : ∀ grp ∈ M, (chunk hs ∘ List.flatten) grp = grp := by
    intro grp hgmem
    show chunk hs grp.flatten = grp
    exact chunk_flatten hs hhs grp (hhead grp hgmem)
  rw [List.map_congr_left this]
  simp

theorem flat3_reshape3 (gs hs : Nat) (hhs : 0 < hs) (hgs : 0 < gs)
    (t : List α) : flat3 (reshape3 gs hs t) = t := by
  rw [reshape3, flat3, ← flatten_map_flatten, List.map_map]
  have : ∀ grp ∈ chunk (gs * hs) t,
      (List.flatten ∘ chunk hs) grp = grp := by
    intro grp _
    exact flatten_chunk hs hhs grp
  rw [List.map_congr_left this]
  simp
  exact flatten_chunk (gs * hs) (by positivity) t

theorem catDim1_map (L : List γ) (f g h : γ → List β) :
    catDim1 (L.map f) (L.map g) (L.map h)
    = L.map (fun x => f x ++ g x ++ h x) := by
  induction L with
  | nil => rfl
  | cons x rest ih =>
    simp only [List.map_cons]
    rw [catDim1, ih]

theorem group_recombine (grp : List β) (gs : Nat) (hlen : grp.length = gs + 2) :
    grp.take gs ++ (grp.drop gs).take 1 ++ (grp.drop (gs + 1)).take 1
    = grp := by
  have h1 : (grp.drop (gs + 1)).take 1 = grp.drop (gs + 1) := by
    apply List.take_of_length_le
    rw [List.length_drop]
    omega
  have h2 : grp.drop (gs + 1) = (grp.drop gs).drop 1 := by
    rw [List.drop_drop]
  rw [h1, h2, List.append_assoc, List.take_append_drop, List.take_append_drop]

end ModelZoo

namespace ModelZoo.Falcon40B

/-- Embedding of `Converter_Falcon_40B_Attention_HF_CS20.interleave_helper`
(falcon_40b.py, lines 71-95) on a tensor of shape
`(groups, heads_per_group, inner, trailing)`: each head is interleaved
on its leading `rotary_dim` rows; the trailing weight dimension is
abstracted into the row type.  The reshape into pairs performed inside
requires an even rotary slice; that torch-level precondition is checked
by the callers below where the head length is known. -/
def interleave_helper (rotary_dim : Nat) (t : List (List (List α))) :
    List (List (List α)) :=
  t.map (fun grp => grp.map (ModelZoo.ihRow rotary_dim))

/-- Embedding of
`Converter_Falcon_40B_Attention_HF_CS20.reverse_interleave_helper`
(falcon_40b.py, lines 97-126): the flat tensor is reshaped to
`(num_groups, group_size, -1, trailing)` and each head is
de-interleaved on its leading `rotary_dim` rows.  The torch reshapes
fail, in order, when the group reshape does not divide the tensor,
when the rotary slice length is odd, and when the final reshape back
to `rotary_dim` rows does not match the slice; these are returned as
errors. -/
def reverse_interleave_helper (rotary_dim group_size num_groups : Nat)
    (t : List α) : Except String (List (List (List α))) :=
  if num_groups * group_size = 0 ∨ t.length % (num_groups * group_size) ≠ 0
  then
    .error "cannot reshape tensor into groups"
  else
    let inner := t.length / (num_groups * group_size)
    if (min rotary_dim inner) % 2 ≠ 0 then
      .error "cannot reshape rotary slice into pairs"
    else if min rotary_dim inner ≠ rotary_dim then
      .error "cannot reshape rotary slice back to rotary_dim rows"
    else
      .ok ((ModelZoo.reshape3 group_size inner t).map
        (fun grp => grp.map (ModelZoo.rihRow rotary_dim)))

/-- Embedding of
`Converter_Falcon_40B_Attention_HF_CS20.qkv_converter_hf_to_cs`
(falcon_40b.py, lines 128-201): the packed `query_key_value` tensor is
checked against `head_size * (num_kv_groups * 2 + num_heads)`, reshaped
to `(num_kv_groups, kv_group_size + 2, -1)`, sliced into query / key /
value blocks, query and key are interleaved, and each block is
flattened back.  `head_size` is `hidden_size // num_heads` and
`kv_group_size` is `num_heads // num_kv_groups` in the source; the
weight and bias branches differ only in the trailing dimension, which
is abstracted into the row type. -/
def qkv_converter_hf_to_cs (num_heads num_kv_groups head_size : Nat)
    (packed : List α) : Except String (List α × List α × List α) :=
  let kv_group_size := num_heads / num_kv_groups
  if head_size * (num_kv_groups * 2 + num_heads) ≠ packed.length then
    .error "Invalid tensor shape"
  else if num_kv_groups * (kv_group_size + 2) = 0
      ∨ packed.length % (num_kv_groups * (kv_group_size + 2)) ≠ 0 then
    .error "cannot reshape packed tensor into groups"
  else
    let inner := packed.length / (num_kv_groups * (kv_group_size + 2))
    let split_by_num_heads :=
      ModelZoo.reshape3 (kv_group_size + 2) inner packed
    let query := split_by_num_heads.map (fun grp => grp.take kv_group_size)
    let key :=
      split_by_num_heads.map (fun grp => (grp.drop kv_group_size).take 1)
    let value :=
      split_by_num_heads.map (fun grp => (grp.drop (kv_group_size + 1)).take 1)
    if (min head_size inner) % 2 ≠ 0 then
      .error "cannot reshape rotary slice into pairs"
    else
      .ok (ModelZoo.flat3 (interleave_helper head_size query),
        ModelZoo.flat3 (interleave_helper head_size key),
        ModelZoo.flat3 value)

/-- Embedding of
`Converter_Falcon_40B_Attention_HF_CS20.qkv_converter_cs_to_hf`
(falcon_40b.py, lines 203-283): query and key are de-interleaved via
`reverse_interleave_helper` (with group sizes `kv_group_size` and `1`),
value is reshaped to `(num_kv_groups, 1, -1)`, the three blocks are
concatenated along dimension 1 and flattened back into the packed
layout. -/
def qkv_converter_cs_to_hf (num_heads num_kv_groups head_size : Nat)
    (q k v : List α) : Except String (List α) := do
  let kv_group_size := num_heads / num_kv_groups
  let query ← reverse_interleave_helper head_size kv_group_size num_kv_groups q
  let key ← reverse_interleave_helper head_size 1 num_kv_groups k
  if num_kv_groups = 0 ∨ v.length % num_kv_groups ≠ 0 then
    Except.error "cannot reshape value tensor into groups"
  else
    let value := ModelZoo.reshape3 1 (v.length / num_kv_groups) v
    if query.length = key.length ∧ key.length = value.length then
      Except.ok (ModelZoo.flat3 (ModelZoo.catDim1 query key value))
    else
      Except.error "cat: group dimension mismatch"

end ModelZoo.Falcon40B

namespace ModelZoo

theorem flat3_length_const (M : List (List (List α))) (gs hs : Nat)
    (hgrp : ∀ grp ∈ M, grp.length = gs)
    (hhead : ∀ grp ∈ M, ∀ hd ∈ grp, hd.length = hs) :
    (flat3 M).length = M.length * gs * hs := by
  rw [flat3]
  rw [flatten_length_const M.flatten hs (by
    intro hd hmem
    rcases List.mem_flatten.mp hmem with ⟨grp, hg, hh⟩
    exact hhead grp hg hd hh)]
  rw [flatten_length_const M gs hgrp]

theorem catDim1_mem (A B C : List (List β)) :
    ∀ grp ∈ catDim1 A B C,
      ∃ a ∈ A, ∃ b ∈ B, ∃ c ∈ C, grp = a ++ b ++ c := by
  induction A generalizing B C with
  | nil => intro grp hmem; simp [catDim1] at hmem
  | cons a as ih =>
    intro grp hmem
    cases B with
    | nil => simp [catDim1] at hmem
    | cons b bs =>
      cases C with
      | nil => simp [catDim1] at hmem
      | cons c cs =>
        rw [catDim1] at hmem
        rcases List.mem_cons.mp hmem with h | h
        · exact ⟨a, by simp, b, by simp, c, by simp, h⟩
        · rcases ih bs cs grp h with ⟨a2, ha, b2, hb, c2, hc, heq⟩
          exact ⟨a2, by simp [ha], b2, by simp [hb], c2, by simp [hc], heq⟩

theorem catDim1_length (A B C : List (List β))
    (hAB : A.length = B.length) (hBC : B.length = C.length) :
    (catDim1 A B C).length = A.length := by
  induction A generalizing B C with
  | nil =>
    cases B with
    | nil => cases C with
      | nil => rfl
      | cons c cs => simp at hBC
    | cons b bs => simp at hAB
  | cons a as ih =>
    cases B with
    | nil => simp at hAB
    | cons b bs =>
      cases C with
      | nil => simp at hBC
      | cons c cs =>
        rw [catDim1, List.length_cons, List.length_cons,
          ih bs cs (by simpa using hAB) (by simpa using hBC)]

theorem catDim1_proj (A B C : List (List β)) (gs : Nat)
    (hA : ∀ a ∈ A, a.length = gs) (hB : ∀ b ∈ B, b.length = 1)
    (hC : ∀ c ∈ C, c.length = 1)
    (hAB : A.length = B.length) (hBC : B.length = C.length) :
    (catDim1 A B C).map (fun grp => grp.take gs) = A ∧
      (catDim1 A B C).map (fun grp => (grp.drop gs).take 1) = B ∧
      (catDim1 A B C).map (fun grp => (grp.drop (gs + 1)).take 1) = C := by
  induction A generalizing B C with
  | nil =>
    cases B with
    | nil => cases C with
      | nil => exact ⟨rfl, rfl, rfl⟩
      | cons c cs => simp at hBC
    | cons b bs => simp at hAB
  | cons a as ih =>
    cases B with
    | nil => simp at hAB
    | cons b bs =>
      cases C with
      | nil => simp at hBC
      | cons c cs =>
        have hal : a.length = gs := hA a (by simp)
        have hbl : b.length = 1 := hB b (by simp)
        have habl : (a ++ b).length = gs + 1 := by
          rw [List.length_append, hal, hbl]
        rcases ih bs cs (fun x hx => hA x (by simp [hx]))
          (fun x hx => hB x (by simp [hx])) (fun x hx => hC x (by simp [hx]))
          (by simpa using hAB) (by simpa using hBC) with ⟨ihq, ihk, ihv⟩
        refine ⟨?_, ?_, ?_⟩
        · rw [catDim1, List.map_cons, ihq, List.append_assoc,
            List.take_left' hal]
        · rw [catDim1, List.map_cons, ihk, List.append_assoc,
            List.drop_left' hal, List.take_left' hbl]
        · rw [catDim1, List.map_cons, ihv, List.drop_left' habl,
            List.take_of_length_le (by rw [hC c (by simp)])]

theorem reshape3_facts (gs hs : Nat) (hhs : 0 < hs) (hgs : 0 < gs)
    (t : List α) (g : Nat) (hlen : t.length = g * (gs * hs)) :
    (reshape3 gs hs t).length = g ∧
      (∀ grp ∈ reshape3 gs hs t, grp.length = gs) ∧
      (∀ grp ∈ reshape3 gs hs t, ∀ hd ∈ grp, hd.length = hs) := by
  have hpos : 0 < gs * hs := by positivity
  have hdvd : gs * hs ∣ t.length := ⟨g, by rw [hlen]; ring⟩
  have houter := chunk_mem_length (gs * hs) hpos t hdvd
  refine ⟨?_, ?_, ?_⟩
  · rw [reshape3, List.length_map, length_chunk (gs * hs) hpos t hdvd, hlen,
      Nat.mul_comm g (gs * hs), Nat.mul_div_cancel_left _ hpos]
  · intro grp hmem
    rcases List.mem_map.mp hmem with ⟨grp0, hg0, heq⟩
    have h0 := houter grp0 hg0
    rw [← heq, length_chunk hs hhs grp0 (by rw [h0]; exact ⟨gs, by ring⟩),
      h0, Nat.mul_comm gs hs, Nat.mul_div_cancel_left _ hhs]
  · intro grp hmem hd hmem2
    rcases List.mem_map.mp hmem with ⟨grp0, hg0, heq⟩
    have h0 := houter grp0 hg0
    rw [← heq] at hmem2
    exact chunk_mem_length hs hhs grp0 (by rw [h0]; exact ⟨gs, by ring⟩)
      hd hmem2

theorem map_map_invert (M : List (List (List α))) (f g : List α → List α)
    (h : ∀ grp ∈ M, ∀ hd ∈ grp, g (f hd) = hd) :
    (M.map (fun grp => grp.map f)).map (fun grp => grp.map g) = M := by
  rw [List.map_map]
  have hgrp : ∀ grp ∈ M,
      ((fun grp => grp.map g) ∘ fun grp => grp.map f) grp = grp := by
    intro grp hmem
    show (grp.map f).map g = grp
    rw [List.map_map]
    have : ∀ hd ∈ grp, (g ∘ f) hd = hd := fun hd hh => h grp hmem hd hh
    rw [List.map_congr_left this]
    simp
  rw [List.map_congr_left hgrp]
  simp

end ModelZoo

namespace ModelZoo

theorem ok_bind {γ δ : Type u} (a : γ) (f : γ → Except String δ) :
    (Except.ok a >>= f) = f a := rfl

theorem error_bind {γ δ : Type u} (e : String) (f : γ → Except String δ) :
    ((Except.error e : Except String γ) >>= f) = Except.error e := rfl

end ModelZoo

namespace ModelZoo.Falcon40B

theorem reverse_interleave_eval (hs gsz g : Nat) (t : List α)
    (hg : 0 < g) (hgsz : 0 < gsz) (hev : hs % 2 = 0)
    (hlen : t.length = g * (gsz * hs)) :
    reverse_interleave_helper hs gsz g t
    = .ok ((ModelZoo.reshape3 gsz hs t).map
        (fun grp => grp.map (ModelZoo.rihRow hs))) := by
  have hassoc : t.length = g * gsz * hs := by rw [hlen]; ring
  have hinner : t.length / (g * gsz) = hs := by
    rw [hassoc, Nat.mul_div_cancel_left _ (by positivity)]
  rw [reverse_interleave_helper]
  rw [if_neg (by
    push_neg
    refine ⟨by positivity, ?_⟩
    rw [hassoc, Nat.mul_mod_right])]
  simp only [hinner, min_self]
  rw [if_neg (by omega), if_neg (by simp)]

theorem reverse_interleave_eval_zero (gsz g : Nat) (hg : 0 < g)
    (hgsz : 0 < gsz) :
    reverse_interleave_helper 0 gsz g ([] : List α) = .ok [] := by
  rw [reverse_interleave_helper]
  rw [if_neg (by
    push_neg
    exact ⟨by positivity, by simp⟩)]
  simp [ModelZoo.reshape3, ModelZoo.chunk]

theorem hf_to_cs_zero (n g : Nat) (hg : 0 < g) :
    qkv_converter_hf_to_cs n g 0 ([] : List α) = .ok ([], [], []) := by
  rw [qkv_converter_hf_to_cs]
  rw [if_neg (by simp)]
  rw [if_neg (by
    push_neg
    exact ⟨by positivity, by simp⟩)]
  rw [if_neg (by simp)]
  simp [ModelZoo.reshape3, ModelZoo.chunk, ModelZoo.flat3, interleave_helper]

theorem cs_to_hf_zero (n g : Nat) (hg : 0 < g) (hgs : 0 < n / g) :
    qkv_converter_cs_to_hf n g 0 ([] : List α) [] [] = .ok [] := by
  rw [qkv_converter_cs_to_hf]
  rw [reverse_interleave_eval_zero (n / g) g hg hgs]
  rw [reverse_interleave_eval_zero 1 g hg (by omega)]
  simp only [ModelZoo.ok_bind, ModelZoo.reshape3, ModelZoo.chunk]
  rw [if_neg (by
    push_neg
    exact ⟨by omega, by simp⟩)]
  rw [if_pos (by simp [ModelZoo.reshape3, ModelZoo.chunk])]
  simp [ModelZoo.reshape3, ModelZoo.chunk, ModelZoo.flat3, ModelZoo.catDim1]

end ModelZoo.Falcon40B

namespace ModelZoo.Falcon40B

theorem map_rows_facts (f : List α → List α) (hs gs : Nat)
    (M : List (List (List α)))
    (hgrp : ∀ a ∈ M, a.length = gs)
    (hhead : ∀ a ∈ M, ∀ hd ∈ a, hd.length = hs)
    (hf : ∀ hd : List α, hd.length = hs → (f hd).length = hs) :
    (M.map (fun grp => grp.map f)).length = M.length ∧
      (∀ a ∈ M.map (fun grp => grp.map f), a.length = gs) ∧
      (∀ a ∈ M.map (fun grp => grp.map f), ∀ hd ∈ a, hd.length = hs) := by
  refine ⟨List.length_map _ _, ?_, ?_⟩
  · intro a ha
    rcases List.mem_map.mp ha with ⟨grp, hgmem, rfl⟩
    rw [List.length_map]
    exact hgrp grp hgmem
  · intro a ha hd hmem
    rcases List.mem_map.mp ha with ⟨grp, hgmem, rfl⟩
    rcases List.mem_map.mp hmem with ⟨hd0, hd0mem, rfl⟩
    exact hf hd0 (hhead grp hgmem hd0 hd0mem)

theorem slice_facts (Sp : List (List (List α))) (gs hs : Nat)
    (hSgrp : ∀ grp ∈ Sp, grp.length = gs + 2)
    (hShead : ∀ grp ∈ Sp, ∀ hd ∈ grp, hd.length = hs) :
    ((∀ a ∈ Sp.map (fun grp => grp.take gs), a.length = gs) ∧
      ∀ a ∈ Sp.map (fun grp => grp.take gs), ∀ hd ∈ a, hd.length = hs) ∧
    ((∀ a ∈ Sp.map (fun grp => (grp.drop gs).take 1), a.length = 1) ∧
      ∀ a ∈ Sp.map (fun grp => (grp.drop gs).take 1), ∀ hd ∈ a,
        hd.length = hs) ∧
    ((∀ a ∈ Sp.map (fun grp => (grp.drop (gs + 1)).take 1), a.length = 1) ∧
      ∀ a ∈ Sp.map (fun grp => (grp.drop (gs + 1)).take 1), ∀ hd ∈ a,
        hd.length = hs) := by
  refine ⟨⟨?_, ?_⟩, ⟨?_, ?_⟩, ⟨?_, ?_⟩⟩
  · intro a ha
    rcases List.mem_map.mp ha with ⟨grp, hgmem, rfl⟩
    rw [List.length_take, hSgrp grp hgmem]
    omega
  · intro a ha hd hmem
    rcases List.mem_map.mp ha with ⟨grp, hgmem, rfl⟩
    exact hShead grp hgmem hd (List.mem_of_mem_take hmem)
  · intro a ha
    rcases List.mem_map.mp ha with ⟨grp, hgmem, rfl⟩
    rw [List.length_take, List.length_drop, hSgrp grp hgmem]
    omega
  · intro a ha hd hmem
    rcases List.mem_map.mp ha with ⟨grp, hgmem, rfl⟩
    exact hShead grp hgmem hd
      (List.mem_of_mem_drop (List.mem_of_mem_take hmem))
  · intro a ha
    rcases List.mem_map.mp ha with ⟨grp, hgmem, rfl⟩
    rw [List.length_take, List.length_drop, hSgrp grp hgmem]
    omega
  · intro a ha hd hmem
    rcases List.mem_map.mp ha with ⟨grp, hgmem, rfl⟩
    exact hShead grp hgmem hd
      (List.mem_of_mem_drop (List.mem_of_mem_take hmem))

end ModelZoo.Falcon40B

namespace ModelZoo.Falcon40B

open ModelZoo

/-- C2 (amended: the grouping additionally has an even head size, as
required by the rotary-pair reshapes inside the converters).  Fused-QKV
split / merge is an involution: for every grouping configuration (full
multi-head, multi-query, or grouped-query, i.e. `num_kv_groups`
dividing `num_heads`, both positive) with even `head_size`, applying
`qkv_converter_hf_to_cs` to a packed `query_key_value` tensor
satisfying `head_size * (num_kv_groups * 2 + num_heads) = packed_dim`
and then `qkv_converter_cs_to_hf` to the resulting three proj tensors
reproduces the original packed tensor exactly; and merging three proj
tensors of matching shapes and re-splitting them reproduces the three
pre-merge originals. -/
theorem qkv_split_merge_involution
    (num_heads num_kv_groups head_size : Nat) (packed q k v : List α)
    (hg : 0 < num_kv_groups) (hn : 0 < num_heads)
    (hdvd : num_kv_groups ∣ num_heads) (hev : head_size % 2 = 0)
    (hpacked : packed.length = head_size * (num_kv_groups * 2 + num_heads))
    (hq : q.length = num_kv_groups * (num_heads / num_kv_groups) * head_size)
    (hk : k.length = num_kv_groups * head_size)
    (hv : v.length = num_kv_groups * head_size) :
    (qkv_converter_hf_to_cs num_heads num_kv_groups head_size packed >>=
      fun t => qkv_converter_cs_to_hf num_heads num_kv_groups head_size
        t.1 t.2.1 t.2.2) = Except.ok packed ∧
      (qkv_converter_cs_to_hf num_heads num_kv_groups head_size q k v >>=
        fun p => qkv_converter_hf_to_cs num_heads num_kv_groups head_size p)
      = Except.ok (q, k, v) := by
  obtain ⟨gs, hgseq⟩ := hdvd
  have hgs : num_heads / num_kv_groups = gs := by
    rw [hgseq, Nat.mul_div_cancel_left gs hg]
  have hgspos : 0 < gs := by
    rcases Nat.eq_zero_or_pos gs with h0 | h0
    · rw [h0, Nat.mul_zero] at hgseq; omega
    · exact h0
  rcases Nat.eq_zero_or_pos head_size with hhs0 | hhs
  · subst hhs0
    have hp : packed = [] := List.length_eq_zero.mp (by rw [hpacked]; ring)
    have hq0 : q = [] := List.length_eq_zero.mp (by rw [hq]; ring)
    have hk0 : k = [] := List.length_eq_zero.mp (by rw [hk]; ring)
    have hv0 : v = [] := List.length_eq_zero.mp (by rw [hv]; ring)
    subst hp; subst hq0; subst hk0; subst hv0
    constructor
    · rw [hf_to_cs_zero _ _ hg, ModelZoo.ok_bind]
      exact cs_to_hf_zero _ _ hg (by rw [hgs]; exact hgspos)
    · rw [cs_to_hf_zero _ _ hg (by rw [hgs]; exact hgspos), ModelZoo.ok_bind]
      exact hf_to_cs_zero _ _ hg
  -- main case: positive head size
  have hplen : packed.length = num_kv_groups * ((gs + 2) * head_size) := by
    rw [hpacked, hgseq]; ring
  have hplen2 : packed.length = num_kv_groups * (gs + 2) * head_size := by
    rw [hplen]; ring
  obtain ⟨hSlen, hSgrp, hShead⟩ :=
    reshape3_facts (gs + 2) head_size hhs (by omega) packed num_kv_groups
      hplen
  obtain ⟨⟨hQgrp, hQhead⟩, ⟨hKgrp, hKhead⟩, hVgrp, hVhead⟩ :=
    slice_facts (ModelZoo.reshape3 (gs + 2) head_size packed) gs head_size
      hSgrp hShead
  obtain ⟨hIQlen, hIQgrp, hIQhead⟩ :=
    map_rows_facts (ModelZoo.ihRow head_size) head_size gs
      ((ModelZoo.reshape3 (gs + 2) head_size packed).map
        (fun grp => grp.take gs))
      hQgrp hQhead
      (fun hd hlen => by
        rw [ModelZoo.ihRow_length head_size hd hev (by omega), hlen])
  obtain ⟨hIKlen, hIKgrp, hIKhead⟩ :=
    map_rows_facts (ModelZoo.ihRow head_size) head_size 1
      ((ModelZoo.reshape3 (gs + 2) head_size packed).map
        (fun grp => (grp.drop gs).take 1))
      hKgrp hKhead
      (fun hd hlen => by
        rw [ModelZoo.ihRow_length head_size hd hev (by omega), hlen])
  -- evaluation of the HF-to-CS split on the packed tensor
  have hfeval : qkv_converter_hf_to_cs num_heads num_kv_groups head_size
      packed
      = .ok (ModelZoo.flat3 (interleave_helper head_size
          ((ModelZoo.reshape3 (gs + 2) head_size packed).map
            (fun grp => grp.take gs))),
        ModelZoo.flat3 (interleave_helper head_size
          ((ModelZoo.reshape3 (gs + 2) head_size packed).map
            (fun grp => (grp.drop gs).take 1))),
        ModelZoo.flat3
          ((ModelZoo.reshape3 (gs + 2) head_size packed).map
            (fun grp => (grp.drop (gs + 1)).take 1))) := by
    simp only [qkv_converter_hf_to_cs]
    rw [hgs]
    rw [if_neg (by rw [hpacked]; simp)]
    rw [if_neg (by
      push_neg
      refine ⟨by positivity, ?_⟩
      rw [hplen2, Nat.mul_mod_right])]
    rw [hplen2, Nat.mul_div_cancel_left _ (by positivity : 0 < num_kv_groups * (gs + 2))]
    rw [min_self]
    rw [if_neg (by omega)]
  rw [hfeval, ModelZoo.ok_bind]
  -- evaluation of the CS-to-HF merge applied to the split results
  have hflatQ : (ModelZoo.flat3 (interleave_helper head_size
      ((ModelZoo.reshape3 (gs + 2) head_size packed).map
        (fun grp => grp.take gs)))).length
      = num_kv_groups * (gs * head_size) := by
    rw [interleave_helper,
      flat3_length_const _ gs head_size hIQgrp hIQhead, hIQlen,
      List.length_map, hSlen]
    ring
  have hflatK : (ModelZoo.flat3 (interleave_helper head_size
      ((ModelZoo.reshape3 (gs + 2) head_size packed).map
        (fun grp => (grp.drop gs).take 1)))).length
      = num_kv_groups * (1 * head_size) := by
    rw [interleave_helper,
      flat3_length_const _ 1 head_size hIKgrp hIKhead, hIKlen,
      List.length_map, hSlen]
    ring
  have hflatV : (ModelZoo.flat3
      ((ModelZoo.reshape3 (gs + 2) head_size packed).map
        (fun grp => (grp.drop (gs + 1)).take 1))).length
      = num_kv_groups * (1 * head_size) := by
    rw [flat3_length_const _ 1 head_size hVgrp hVhead, List.length_map,
      hSlen]
    ring
  simp only [qkv_converter_cs_to_hf]
  rw [hgs]
  rw [show interleave_helper head_size
      ((ModelZoo.reshape3 (gs + 2) head_size packed).map
        (fun grp => grp.take gs))
      = ((ModelZoo.reshape3 (gs + 2) head_size packed).map
          (fun grp => grp.take gs)).map
          (fun grp => grp.map (ModelZoo.ihRow head_size)) from rfl] at *
  rw [show interleave_helper head_size
      ((ModelZoo.reshape3 (gs + 2) head_size packed).map
        (fun grp => (grp.drop gs).take 1))
      = ((ModelZoo.reshape3 (gs + 2) head_size packed).map
          (fun grp => (grp.drop gs).take 1)).map
          (fun grp => grp.map (ModelZoo.ihRow head_size)) from rfl] at *
  rw [reverse_interleave_eval head_size gs num_kv_groups _ hg hgspos hev
    hflatQ]
  rw [reverse_interleave_eval head_size 1 num_kv_groups _ hg (by omega) hev
    hflatK]
  simp only [ModelZoo.ok_bind]
  rw [if_neg (by
    push_neg
    refine ⟨by omega, ?_⟩
    rw [hflatV, show num_kv_groups * (1 * head_size)
      = num_kv_groups * head_size from by ring, Nat.mul_mod_right])]
  rw [show (ModelZoo.flat3
      ((ModelZoo.reshape3 (gs + 2) head_size packed).map
        (fun grp => (grp.drop (gs + 1)).take 1))).length / num_kv_groups
      = head_size from by
    rw [hflatV, show num_kv_groups * (1 * head_size)
      = num_kv_groups * head_size from by ring,
      Nat.mul_div_cancel_left _ hg]]
  rw [reshape3_of_flat3 gs head_size hhs hgspos _ hIQgrp hIQhead]
  rw [reshape3_of_flat3 1 head_size hhs (by omega) _ hIKgrp hIKhead]
  rw [reshape3_of_flat3 1 head_size hhs (by omega) _ hVgrp hVhead]
  rw [map_map_invert _ (ModelZoo.ihRow head_size) (ModelZoo.rihRow head_size)
    (fun grp hgmem hd hmem =>
      ModelZoo.rihRow_ihRow head_size hd hev
        (by rw [hQhead grp hgmem hd hmem]))]
  rw [map_map_invert _ (ModelZoo.ihRow head_size) (ModelZoo.rihRow head_size)
    (fun grp hgmem hd hmem =>
      ModelZoo.rihRow_ihRow head_size hd hev
        (by rw [hKhead grp hgmem hd hmem]))]
  rw [if_pos (by
    constructor
    · rw [List.length_map, List.length_map]
    · rw [List.length_map, List.length_map])]
  rw [catDim1_map]
  rw [List.map_congr_left (fun grp hgmem =>
    group_recombine grp gs (hSgrp grp hgmem))]
  have hmapid : (ModelZoo.reshape3 (gs + 2) head_size packed).map
      (fun grp => grp) = ModelZoo.reshape3 (gs + 2) head_size packed := by
    simp
  rw [hmapid, flat3_reshape3 (gs + 2) head_size hhs (by omega) packed]
  -- part B: merge then split
  refine ⟨rfl, ?_⟩
  have hqlen : q.length = num_kv_groups * (gs * head_size) := by
    rw [hq, hgs]; ring
  have hklen2 : k.length = num_kv_groups * (1 * head_size) := by
    rw [hk]; ring
  have hvlen2 : v.length = num_kv_groups * (1 * head_size) := by
    rw [hv]; ring
  obtain ⟨hq3len, hq3grp, hq3head⟩ :=
    reshape3_facts gs head_size hhs hgspos q num_kv_groups hqlen
  obtain ⟨hk3len, hk3grp, hk3head⟩ :=
    reshape3_facts 1 head_size hhs (by omega) k num_kv_groups hklen2
  obtain ⟨hv3len, hv3grp, hv3head⟩ :=
    reshape3_facts 1 head_size hhs (by omega) v num_kv_groups hvlen2
  obtain ⟨hQ3len, hQ3grp, hQ3head⟩ :=
    map_rows_facts (ModelZoo.rihRow head_size) head_size gs
      (ModelZoo.reshape3 gs head_size q) hq3grp hq3head
      (fun hd hlen => by
        rw [ModelZoo.rihRow_length head_size hd hev (by omega), hlen])
  obtain ⟨hK3len, hK3grp, hK3head⟩ :=
    map_rows_facts (ModelZoo.rihRow head_size) head_size 1
      (ModelZoo.reshape3 1 head_size k) hk3grp hk3head
      (fun hd hlen => by
        rw [ModelZoo.rihRow_length head_size hd hev (by omega), hlen])
  rw [reverse_interleave_eval head_size gs num_kv_groups q hg hgspos hev
    hqlen]
  rw [reverse_interleave_eval head_size 1 num_kv_groups k hg (by omega) hev
    hklen2]
  simp only [ModelZoo.ok_bind]
  rw [if_neg (by
    push_neg
    refine ⟨by omega, ?_⟩
    rw [hv, Nat.mul_mod_right])]
  rw [show v.length / num_kv_groups = head_size from by
    rw [hv, Nat.mul_div_cancel_left _ hg]]
  have hlenQK : (List.map (fun grp => List.map (ModelZoo.rihRow head_size)
      grp) (ModelZoo.reshape3 gs head_size q)).length
      = (List.map (fun grp => List.map (ModelZoo.rihRow head_size) grp)
        (ModelZoo.reshape3 1 head_size k)).length := by
    rw [hQ3len, hq3len, hK3len, hk3len]
  have hlenKV : (List.map (fun grp => List.map (ModelZoo.rihRow head_size)
      grp) (ModelZoo.reshape3 1 head_size k)).length
      = (ModelZoo.reshape3 1 head_size v).length := by
    rw [hK3len, hk3len, hv3len]
  rw [if_pos ⟨hlenQK, hlenKV⟩]
  rw [ModelZoo.ok_bind]
  -- facts about the merged tensor
  have hMlen : (ModelZoo.catDim1
      ((ModelZoo.reshape3 gs head_size q).map
        (fun grp => grp.map (ModelZoo.rihRow head_size)))
      ((ModelZoo.reshape3 1 head_size k).map
        (fun grp => grp.map (ModelZoo.rihRow head_size)))
      (ModelZoo.reshape3 1 head_size v)).length = num_kv_groups := by
    rw [catDim1_length _ _ _ hlenQK hlenKV, hQ3len, hq3len]
  have hMgrp : ∀ grp ∈ ModelZoo.catDim1
      ((ModelZoo.reshape3 gs head_size q).map
        (fun grp => grp.map (ModelZoo.rihRow head_size)))
      ((ModelZoo.reshape3 1 head_size k).map
        (fun grp => grp.map (ModelZoo.rihRow head_size)))
      (ModelZoo.reshape3 1 head_size v), grp.length = gs + 2 := by
    intro grp hmem
    rcases catDim1_mem _ _ _ grp hmem with ⟨a, ha, b, hb, c, hc, rfl⟩
    rw [List.length_append, List.length_append, hQ3grp a ha, hK3grp b hb,
      hv3grp c hc]
  have hMhead : ∀ grp ∈ ModelZoo.catDim1
      ((ModelZoo.reshape3 gs head_size q).map
        (fun grp => grp.map (ModelZoo.rihRow head_size)))
      ((ModelZoo.reshape3 1 head_size k).map
        (fun grp => grp.map (ModelZoo.rihRow head_size)))
      (ModelZoo.reshape3 1 head_size v), ∀ hd ∈ grp,
      hd.length = head_size := by
    intro grp hmem hd hdmem
    rcases catDim1_mem _ _ _ grp hmem with ⟨a, ha, b, hb, c, hc, rfl⟩
    rcases List.mem_append.mp hdmem with hab | hcm
    · rcases List.mem_append.mp hab with ham | hbm
      · exact hQ3head a ha hd ham
      · exact hK3head b hb hd hbm
    · exact hv3head c hc hd hcm
  have hMflat : (ModelZoo.flat3 (ModelZoo.catDim1
      ((ModelZoo.reshape3 gs head_size q).map
        (fun grp => grp.map (ModelZoo.rihRow head_size)))
      ((ModelZoo.reshape3 1 head_size k).map
        (fun grp => grp.map (ModelZoo.rihRow head_size)))
      (ModelZoo.reshape3 1 head_size v))).length
      = num_kv_groups * (gs + 2) * head_size := by
    rw [flat3_length_const _ (gs + 2) head_size hMgrp hMhead, hMlen]
  -- evaluate the final HF-to-CS split on the merged tensor
  simp only [qkv_converter_hf_to_cs]
  rw [hgs]
  rw [if_neg (by
    push_neg
    rw [hMflat, hgseq]
    ring)]
  rw [if_neg (by
    push_neg
    refine ⟨by positivity, ?_⟩
    rw [hMflat, Nat.mul_mod_right])]
  rw [hMflat, Nat.mul_div_cancel_left _
    (by positivity : 0 < num_kv_groups * (gs + 2))]
  rw [min_self]
  rw [if_neg (by omega)]
  rw [reshape3_of_flat3 (gs + 2) head_size hhs (by omega) _ hMgrp hMhead]
  obtain ⟨hprojQ, hprojK, hprojV⟩ := catDim1_proj
    ((ModelZoo.reshape3 gs head_size q).map
      (fun grp => grp.map (ModelZoo.rihRow head_size)))
    ((ModelZoo.reshape3 1 head_size k).map
      (fun grp => grp.map (ModelZoo.rihRow head_size)))
    (ModelZoo.reshape3 1 head_size v) gs hQ3grp hK3grp hv3grp hlenQK hlenKV
  rw [hprojQ, hprojK, hprojV]
  rw [show interleave_helper head_size
      ((ModelZoo.reshape3 gs head_size q).map
        (fun grp => grp.map (ModelZoo.rihRow head_size)))
      = ((ModelZoo.reshape3 gs head_size q).map
          (fun grp => grp.map (ModelZoo.rihRow head_size))).map
          (fun grp => grp.map (ModelZoo.ihRow head_size)) from rfl]
  rw [show interleave_helper head_size
      ((ModelZoo.reshape3 1 head_size k).map
        (fun grp => grp.map (ModelZoo.rihRow head_size)))
      = ((ModelZoo.reshape3 1 head_size k).map
          (fun grp => grp.map (ModelZoo.rihRow head_size))).map
          (fun grp => grp.map (ModelZoo.ihRow head_size)) from rfl]
  rw [map_map_invert _ (ModelZoo.rihRow head_size) (ModelZoo.ihRow head_size)
    (fun grp hgmem hd hmem =>
      ModelZoo.ihRow_rihRow head_size hd hev
        (by rw [hq3head grp hgmem hd hmem]))]
  rw [map_map_invert _ (ModelZoo.rihRow head_size) (ModelZoo.ihRow head_size)
    (fun grp hgmem hd hmem =>
      ModelZoo.ihRow_rihRow head_size hd hev
        (by rw [hk3head grp hgmem hd hmem]))]
  rw [flat3_reshape3 gs head_size hhs hgspos q]
  rw [flat3_reshape3 1 head_size hhs (by omega) k]
  rw [flat3_reshape3 1 head_size hhs (by omega) v]

end ModelZoo.Falcon40B

namespace ModelZoo.Falcon40B

/-- Counterexample to C2 as literally stated: head size 1 (odd) with one
head and one key/value group satisfies
`head_size * (num_kv_groups * 2 + num_heads) = packed_dim` (1 * 3 = 3),
yet the split raises inside `interleave_helper` (the torch reshape of
the rotary slice into pairs fails on an odd slice), so the
split-then-merge round trip does not reproduce the packed tensor. -/
theorem qkv_split_merge_counterexample :
    (qkv_converter_hf_to_cs 1 1 1 ([0, 1, 2] : List Nat) >>=
      fun t => qkv_converter_cs_to_hf 1 1 1 t.1 t.2.1 t.2.2)
    ≠ Except.ok [0, 1, 2] := by
  have he : (qkv_converter_hf_to_cs 1 1 1 ([0, 1, 2] : List Nat) >>=
      fun t => qkv_converter_cs_to_hf 1 1 1 t.1 t.2.1 t.2.2)
      = Except.error "cannot reshape rotary slice into pairs" := rfl
  rw [he]
  exact fun h => Except.noConfusion h

/-- Witness for C2 at a concrete grouped configuration: 2 heads, 1
key/value group, head size 2, packed tensor of 8 rows. -/
theorem qkv_split_merge_involution_witness :
    ((qkv_converter_hf_to_cs 2 1 2 ([0, 1, 2, 3, 4, 5, 6, 7] : List Nat) >>=
      fun t => qkv_converter_cs_to_hf 2 1 2 t.1 t.2.1 t.2.2)
      = Except.ok [0, 1, 2, 3, 4, 5, 6, 7]) ∧
      ((qkv_converter_cs_to_hf 2 1 2 ([0, 1, 2, 3] : List Nat) [10, 11]
          [20, 21] >>=
        fun p => qkv_converter_hf_to_cs 2 1 2 p)
      = Except.ok ([0, 1, 2, 3], [10, 11], [20, 21])) :=
  qkv_split_merge_involution 2 1 2 [0, 1, 2, 3, 4, 5, 6, 7] [0, 1, 2, 3]
    [10, 11] [20, 21] (by decide) (by decide) (by decide) (by decide)
    (by decide) (by decide) (by decide) (by decide)

end ModelZoo.Falcon40B

namespace ModelZoo.Llama

/-- Embedding of `ConfigConverter_LLaMa_HF_CS20.convert_gqa` (llama.py,
lines 839-860) in the HF-to-CS direction (`from_index = 0`): when
`num_key_value_heads` equals `num_attention_heads` the attention module
is plain multi-head; otherwise the head count must be divisible by the
key/value head count or the conversion raises (the python assert; a
zero key/value head count raises a division error at the same point),
and on success the `num_kv_groups` extra attention parameter is
emitted. -/
def convert_gqa_hf_to_cs (num_attention_heads num_key_value_heads : Nat) :
    Except String (String × Option Nat) :=
  if num_key_value_heads = num_attention_heads then
    .ok ("aiayn_attention", none)
  else if ¬ (num_attention_heads % num_key_value_heads = 0) then
    .error
      "number of attention heads should be divisible by num_key_value_heads"
  else
    .ok ("multiquery_attention", some num_key_value_heads)

end ModelZoo.Llama

namespace ModelZoo

/-- C6.  QKV shape and head-count precondition checks: a packed
`query_key_value` tensor whose size does not satisfy
`head_size * (num_kv_groups * 2 + num_heads) = packed_dim` makes
`qkv_converter_hf_to_cs` raise its descriptive assertion error before
any reshape or slice is performed and without producing any output
tensors; and a config whose attention head count is not divisible by
`num_key_value_heads` makes `convert_gqa` raise its descriptive
assertion error. -/
theorem qkv_precondition_checks :
    (∀ (α : Type) (num_heads num_kv_groups head_size : Nat)
      (packed : List α),
      head_size * (num_kv_groups * 2 + num_heads) ≠ packed.length →
        Falcon40B.qkv_converter_hf_to_cs num_heads num_kv_groups head_size
          packed = Except.error "Invalid tensor shape") ∧
      (∀ (num_attention_heads num_key_value_heads : Nat),
        ¬ (num_key_value_heads ∣ num_attention_heads) →
          Llama.convert_gqa_hf_to_cs num_attention_heads num_key_value_heads
          = Except.error
            "number of attention heads should be divisible by num_key_value_heads") := by
  constructor
  · intro α num_heads num_kv_groups head_size packed h
    simp only [Falcon40B.qkv_converter_hf_to_cs]
    rw [if_pos h]
  · intro num_attention_heads num_key_value_heads h
    have hne : num_key_value_heads ≠ num_attention_heads := by
      intro heq
      exact h (heq ▸ dvd_refl num_key_value_heads)
    have hmod : ¬ (num_attention_heads % num_key_value_heads = 0) := by
      intro hmod0
      exact h (Nat.dvd_iff_mod_eq_zero.mpr hmod0)
    rw [Llama.convert_gqa_hf_to_cs, if_neg hne, if_pos hmod]

/-- Witness for C6: a packed tensor of 1 row cannot hold 1 head and 1
group of head size 2 (2 * 3 = 6 rows were required), and 5 attention
heads are not divisible by 2 key/value heads. -/
theorem qkv_precondition_checks_witness :
    Falcon40B.qkv_converter_hf_to_cs 1 1 2 ([0] : List Nat)
      = Except.error "Invalid tensor shape" ∧
      Llama.convert_gqa_hf_to_cs 5 2
      = Except.error
        "number of attention heads should be divisible by num_key_value_heads" :=
  ⟨qkv_precondition_checks.1 Nat 1 1 2 [0] (by decide),
    qkv_precondition_checks.2 5 2 (by decide)⟩

end ModelZoo

namespace ModelZoo.Streaming

/-- Argument of `convert_file_size_to_int`
(streaming_checkpoints.py, lines 29-56): either an integer byte count
or a formatted size string. -/
inductive SizeArg where
  | int (n : Int)
  | str (s : String)
deriving DecidableEq

/-- The numeric value of a digit run, as computed by python `int()`. -/
def natOfDigits (ds : List Char) : Nat :=
  ds.foldl (fun a c => a * 10 + (c.toNat - 48)) 0

/-- Byte widths of the standard size units. -/
def byte_units : List (String × Nat) :=
  [("B", 1), ("KB", 1000), ("MB", 1000000), ("GB", 1000000000),
    ("TB", 1000000000000), ("KiB", 1024), ("MiB", 1048576),
    ("GiB", 1073741824), ("TiB", 1099511627776)]

/-- Modelled from the spec: `convert_byte_unit` is imported from the
appliance package, which is not part of this repository (the spec lists
"a byte-unit conversion utility" among collaborator interfaces consumed
as black boxes and gives the examples 10GB and 10GiB).  It converts
`num` of unit `src_unit` to bytes for the standard decimal and binary
units and raises for an unknown unit. -/
def convert_byte_unit (num : Nat) (src_unit : String) : Except String Nat :=
  match byte_units.lookup src_unit with
  | some w => .ok (num * w)
  | none => .error "unknown unit"

/-- Embedding of `convert_file_size_to_int`
(streaming_checkpoints.py, lines 29-56).  An integer argument is
returned unchanged.  For a string, `re.search` finds the leftmost
maximal digit run (skipping any leading non-digit characters, across
lines), the group `(.*)` captures the remainder of that line as the
unit, and failure of the search or of the unit conversion raises the
ValueError with the descriptive message. -/
def convert_file_size_to_int : SizeArg → Except String Int
  | .int n => .ok n
  | .str s =>
    let after := s.data.dropWhile (fun c => !c.isDigit)
    if after.isEmpty then
      .error ("size " ++ s ++
        " is not in a valid format. Use an integer followed by the unit, e.g., 10GB.")
    else
      let digits := after.takeWhile Char.isDigit
      let rest := after.dropWhile Char.isDigit
      let unit := (rest.takeWhile (fun c => c != '\n')).asString
      match convert_byte_unit (natOfDigits digits) unit with
      | .ok n => .ok (Int.ofNat n)
      | .error _ =>
        .error ("size " ++ s ++
          " is not in a valid format. Use an integer followed by the unit, e.g., 10GB.")

theorem dropWhile_append_of_all (p : γ → Bool) (l1 l2 : List γ)
    (h : ∀ x ∈ l1, p x = true) :
    (l1 ++ l2).dropWhile p = l2.dropWhile p := by
  induction l1 with
  | nil => rfl
  | cons a rest ih =>
    rw [List.cons_append, List.dropWhile_cons_of_pos (h a (by simp))]
    exact ih (fun x hx => h x (by simp [hx]))

theorem takeWhile_append_of_all (p : γ → Bool) (l1 l2 : List γ)
    (h : ∀ x ∈ l1, p x = true) :
    (l1 ++ l2).takeWhile p = l1 ++ l2.takeWhile p := by
  induction l1 with
  | nil => rfl
  | cons a rest ih =>
    rw [List.cons_append, List.takeWhile_cons_of_pos (h a (by simp)),
      ih (fun x hx => h x (by simp [hx])), List.cons_append]

theorem takeWhile_eq_self_of_all (p : γ → Bool) (l : List γ)
    (h : ∀ x ∈ l, p x = true) : l.takeWhile p = l := by
  induction l with
  | nil => rfl
  | cons a rest ih =>
    rw [List.takeWhile_cons_of_pos (h a (by simp)),
      ih (fun x hx => h x (by simp [hx]))]

theorem takeWhile_eq_nil_of_head (p : γ → Bool) (l : List γ)
    (h : ∀ x ∈ l, ¬ p x = true) : l.takeWhile p = [] := by
  cases l with
  | nil => rfl
  | cons a rest => exact List.takeWhile_cons_of_neg (h a (by simp))

theorem dropWhile_eq_self_of_head (p : γ → Bool) (l : List γ)
    (h : ∀ x ∈ l, ¬ p x = true) : l.dropWhile p = l := by
  cases l with
  | nil => rfl
  | cons a rest => exact List.dropWhile_cons_of_neg (h a (by simp))

end ModelZoo.Streaming

namespace ModelZoo.Streaming

theorem size_scan (p ds : List Char) (u : String)
    (hp : ∀ c ∈ p, c.isDigit = false) (hne : ds ≠ [])
    (hds : ∀ c ∈ ds, c.isDigit = true)
    (hu : ∀ c ∈ u.data, c.isDigit = false ∧ (c == '\n') = false) :
    ((p ++ ds ++ u.data).dropWhile (fun c => !c.isDigit)) = ds ++ u.data ∧
      ((ds ++ u.data).takeWhile Char.isDigit) = ds ∧
      ((ds ++ u.data).dropWhile Char.isDigit) = u.data ∧
      ((u.data.takeWhile (fun c => c != '\n')).asString) = u := by
  refine ⟨?_, ?_, ?_, ?_⟩
  · rw [List.append_assoc,
      dropWhile_append_of_all _ p _ (fun x hx => by simp [hp x hx])]
    cases ds with
    | nil => exact absurd rfl hne
    | cons d rest =>
      rw [List.cons_append,
        List.dropWhile_cons_of_neg (by simp [hds d (by simp)])]
  · rw [takeWhile_append_of_all _ ds _ hds,
      takeWhile_eq_nil_of_head Char.isDigit u.data
        (fun x hx => by simp [(hu x hx).1]),
      List.append_nil]
  · rw [dropWhile_append_of_all _ ds _ hds]
    exact dropWhile_eq_self_of_head _ _ (fun x hx => by simp [(hu x hx).1])
  · rw [takeWhile_eq_self_of_all _ _ (fun x hx => by
      simp only [bne]
      rw [(hu x hx).2]
      rfl)]
    rfl

/-- C9 (amended: leading non-digit characters before the first digit
run are skipped, not rejected — `re.search` is unanchored).
`convert_file_size_to_int` returns an int argument unchanged; for a
string containing a digit run, it parses the first maximal digit run
as the number and the remainder of that line as the unit, returning
`num * unit_width` for a valid unit; it raises a ValueError with a
descriptive message for strings with no digits and for strings whose
trailing unit is invalid. -/
theorem convert_file_size_to_int_spec :
    (∀ n : Int, convert_file_size_to_int (.int n) = .ok n) ∧
      (∀ (p ds : List Char) (u : String) (w : Nat),
        (∀ c ∈ p, c.isDigit = false) → ds ≠ [] →
        (∀ c ∈ ds, c.isDigit = true) →
        (∀ c ∈ u.data, c.isDigit = false ∧ (c == '\n') = false) →
        byte_units.lookup u = some w →
        convert_file_size_to_int (.str (String.mk (p ++ ds ++ u.data)))
          = .ok (Int.ofNat (natOfDigits ds * w))) ∧
      (∀ s : String, (∀ c ∈ s.data, c.isDigit = false) →
        convert_file_size_to_int (.str s)
          = .error ("size " ++ s ++
            " is not in a valid format. Use an integer followed by the unit, e.g., 10GB.")) ∧
      (∀ (p ds : List Char) (u : String),
        (∀ c ∈ p, c.isDigit = false) → ds ≠ [] →
        (∀ c ∈ ds, c.isDigit = true) →
        (∀ c ∈ u.data, c.isDigit = false ∧ (c == '\n') = false) →
        byte_units.lookup u = none →
        convert_file_size_to_int (.str (String.mk (p ++ ds ++ u.data)))
          = .error ("size " ++ String.mk (p ++ ds ++ u.data) ++
            " is not in a valid format. Use an integer followed by the unit, e.g., 10GB.")) := by
  refine ⟨fun n => rfl, ?_, ?_, ?_⟩
  · intro p ds u w hp hne hds hu hlookup
    obtain ⟨h1, h2, h3, h4⟩ := size_scan p ds u hp hne hds hu
    have hcbu : convert_byte_unit (natOfDigits ds) u
        = .ok (natOfDigits ds * w) := by
      simp only [convert_byte_unit]
      rw [hlookup]
    simp only [convert_file_size_to_int]
    rw [h1]
    rw [if_neg (by
      cases ds with
      | nil => exact absurd rfl hne
      | cons d rest => simp)]
    rw [h2, h3, h4, hcbu]
  · intro s hs
    have h1 : s.data.dropWhile (fun c => !c.isDigit) = [] := by
      rw [List.dropWhile_eq_nil_iff]
      intro x hx
      simp [hs x hx]
    simp only [convert_file_size_to_int]
    rw [h1]
    rfl
  · intro p ds u hp hne hds hu hlookup
    obtain ⟨h1, h2, h3, h4⟩ := size_scan p ds u hp hne hds hu
    have hcbu : convert_byte_unit (natOfDigits ds) u
        = .error "unknown unit" := by
      simp only [convert_byte_unit]
      rw [hlookup]
    simp only [convert_file_size_to_int]
    rw [h1]
    rw [if_neg (by
      cases ds with
      | nil => exact absurd rfl hne
      | cons d rest => simp)]
    rw [h2, h3, h4, hcbu]

/-- Counterexample to C9 as literally stated: the string has a leading
non-digit character before the digits, which the claim says must raise
a ValueError, but `re.search` skips it: the parse succeeds and returns
10 GB in bytes. -/
theorem convert_file_size_leading_garbage :
    convert_file_size_to_int (.str "x10GB")
    = .ok (Int.ofNat 10000000000) := rfl

/-- Witness for C9 at concrete inputs: an int is returned unchanged,
the string 10GB parses to 10^10 bytes, a string with no digits and a
string with an invalid unit raise the descriptive error. -/
theorem convert_file_size_to_int_spec_witness :
    convert_file_size_to_int (.int 7) = .ok 7 ∧
      convert_file_size_to_int (.str (String.mk
          ([] ++ ['1', '0'] ++ "GB".data)))
        = .ok (Int.ofNat (natOfDigits ['1', '0'] * 1000000000)) ∧
      convert_file_size_to_int (.str "abc")
        = .error ("size " ++ "abc" ++
          " is not in a valid format. Use an integer followed by the unit, e.g., 10GB.") ∧
      convert_file_size_to_int (.str (String.mk
          ([] ++ ['1', '0'] ++ "XB".data)))
        = .error ("size " ++ String.mk ([] ++ ['1', '0'] ++ "XB".data) ++
          " is not in a valid format. Use an integer followed by the unit, e.g., 10GB.") :=
  ⟨convert_file_size_to_int_spec.1 7,
    convert_file_size_to_int_spec.2.1 [] ['1', '0'] "GB" 1000000000
      (by decide) (by decide) (by decide) (by decide) (by decide),
    convert_file_size_to_int_spec.2.2.1 "abc" (by decide),
    convert_file_size_to_int_spec.2.2.2 [] ['1', '0'] "XB"
      (by decide) (by decide) (by decide) (by decide) (by decide)⟩

end ModelZoo.Streaming

namespace ModelZoo

/-- Lookup in an association list, mirroring python dict access. -/
def lookupA [DecidableEq κ] (k : κ) : List (κ × β) → Option β
  | [] => none
  | (k1, v1) :: rest => if k1 = k then some v1 else lookupA k rest

/-- Update / insert in an association list, mirroring python dict
assignment: an existing key keeps its position, a new key is appended
at the end. -/
def updateA [DecidableEq κ] (k : κ) (v : β) : List (κ × β) → List (κ × β)
  | [] => [(k, v)]
  | (k1, v1) :: rest =>
    if k1 = k then (k, v) :: rest else (k1, v1) :: updateA k v rest

theorem lookupA_updateA_self [DecidableEq κ] (k : κ) (v : β) :
    ∀ (l : List (κ × β)), lookupA k (updateA k v l) = some v := by
  intro l
  induction l with
  | nil => simp [lookupA, updateA]
  | cons kv rest ih =>
    by_cases h : kv.1 = k
    · simp [lookupA, updateA, h]
    · simp only [updateA, lookupA]
      rw [if_neg h, lookupA, if_neg h]
      exact ih

theorem lookupA_updateA_ne [DecidableEq κ] (k k2 : κ) (v : β)
    (hne : k2 ≠ k) :
    ∀ (l : List (κ × β)), lookupA k2 (updateA k v l) = lookupA k2 l := by
  intro l
  induction l with
  | nil =>
    simp only [lookupA, updateA]
    rw [if_neg (fun h => hne h.symm)]
  | cons kv rest ih =>
    by_cases h : kv.1 = k
    · subst h
      simp only [updateA, if_pos rfl, lookupA]
      rw [if_neg (fun h2 => hne h2.symm), if_neg (fun h2 => hne h2.symm)]
    · simp only [updateA, if_neg h, lookupA]
      by_cases h2 : kv.1 = k2
      · rw [if_pos h2, if_pos h2]
      · rw [if_neg h2, if_neg h2]
        exact ih

end ModelZoo

namespace ModelZoo.Llama

/-- A value written into the target state dict by the post-conversion
pass: either a tensor copied from the source state dict, or a tensor
freshly allocated with `torch.zeros(...)` followed by
`normal_(mean, std)`, or a fresh `torch.zeros` bias.  The random draw
is represented symbolically by its parameters. -/
inductive TensorVal (τ : Type) where
  | stored (t : τ)
  | normalInit (mean std : ℚ) (rows cols : Nat)
  | zeros (n : Nat)
deriving DecidableEq

/-- The source (HF) config fields read by `post_model_convert`. -/
structure HFConfig where
  tie_word_embeddings : Bool
  initializer_range : ℚ
deriving DecidableEq

/-- The target (CS) model config fields read by `post_model_convert`. -/
structure CSConfig where
  vocab_size : Nat
  hidden_size : Nat
  use_bias_in_output : Bool
deriving DecidableEq

/-- Embedding of `Converter_LlamaModel_HF_CS.post_model_convert`
(llama.py, lines 354-394).  Converting HF to CS (`from_index = 0`)
synthesizes the missing language-model head: with weight tying the
head is a copy of the source `embed_tokens.weight` tensor, otherwise a
fresh tensor drawn with `normal_(mean=0.0, std=0.02)` — the standard
deviation is the literal 0.02 in the source, not the configured
initializer range.  A bias of zeros is added when the CS config asks
for one.  In the other direction no key is synthesized.
`Converter_Falcon_40B_Headless_WithoutModelPrefix_HF_CS20.post_model_convert`
(falcon_40b.py, lines 440-477) is the same computation with the source
embedding key named `transformer.word_embeddings.weight`. -/
def post_model_convert (from_index : Nat) (hf_config : HFConfig)
    (cs_config : CSConfig) (old_state_dict : List (String × τ))
    (new_state_dict : List (String × TensorVal τ)) :
    Except String (List (String × TensorVal τ)) :=
  if from_index = 0 then
    let use_bias_in_output := cs_config.use_bias_in_output
    let vocab_size := cs_config.vocab_size
    let embed_dim := cs_config.hidden_size
    match (if hf_config.tie_word_embeddings then
        match ModelZoo.lookupA "embed_tokens.weight" old_state_dict with
        | some t => Except.ok (TensorVal.stored t)
        | none => Except.error "KeyError: embed_tokens.weight"
      else
        Except.ok (TensorVal.normalInit 0 (1 / 50) vocab_size embed_dim)) with
    | .error e => .error e
    | .ok lm_head_weight =>
      let d1 := ModelZoo.updateA "lm_head.weight" lm_head_weight
        new_state_dict
      if use_bias_in_output then
        .ok (ModelZoo.updateA "lm_head.bias" (TensorVal.zeros vocab_size) d1)
      else
        .ok d1
  else
    .ok new_state_dict

/-- C5 (amended: with `tie_word_embeddings` false the standard
deviation of the synthesized head is the fixed default 0.02, not the
configured initializer range).  In direction 0, when the source config
ties word embeddings, the synthesized `lm_head.weight` is exactly the
source input-embedding tensor; otherwise it is a fresh tensor drawn
from a normal distribution with mean 0 and standard deviation 0.02. -/
theorem post_model_convert_lm_head (τ : Type) (hf : HFConfig)
    (cs : CSConfig) (old_state : List (String × τ))
    (new_state : List (String × TensorVal τ)) (t : τ)
    (hemb : ModelZoo.lookupA "embed_tokens.weight" old_state = some t) :
    (hf.tie_word_embeddings = true →
      ∃ out, post_model_convert 0 hf cs old_state new_state = .ok out ∧
        ModelZoo.lookupA "lm_head.weight" out = some (TensorVal.stored t)) ∧
      (hf.tie_word_embeddings = false →
        ∃ out, post_model_convert 0 hf cs old_state new_state = .ok out ∧
          ModelZoo.lookupA "lm_head.weight" out
          = some (TensorVal.normalInit 0 (1 / 50) cs.vocab_size
              cs.hidden_size)) := by
  constructor
  · intro htie
    rw [post_model_convert, if_pos rfl]
    simp only [htie, if_pos, hemb]
    by_cases hb : cs.use_bias_in_output
    · refine ⟨_, by rw [if_pos hb], ?_⟩
      rw [ModelZoo.lookupA_updateA_ne _ _ _ (by decide),
        ModelZoo.lookupA_updateA_self]
    · refine ⟨_, by rw [if_neg hb], ?_⟩
      rw [ModelZoo.lookupA_updateA_self]
  · intro htie
    rw [post_model_convert, if_pos rfl]
    simp only [htie, Bool.false_eq_true, if_false]
    by_cases hb : cs.use_bias_in_output
    · refine ⟨_, by rw [if_pos hb], ?_⟩
      rw [ModelZoo.lookupA_updateA_ne _ _ _ (by decide),
        ModelZoo.lookupA_updateA_self]
    · refine ⟨_, by rw [if_neg hb], ?_⟩
      rw [ModelZoo.lookupA_updateA_self]

/-- Counterexample to C5 as literally stated: with
`tie_word_embeddings = False` and a configured initializer range of
0.01, the synthesized head uses standard deviation 0.02 (the literal
in the source), not the configured 0.01. -/
theorem post_model_convert_std_counterexample :
    post_model_convert 0 ⟨false, 1 / 100⟩ ⟨4, 2, false⟩
        ([] : List (String × Nat)) []
      = .ok [("lm_head.weight", TensorVal.normalInit 0 (1 / 50) 4 2)] ∧
      (1 / 50 : ℚ) ≠ (⟨false, 1 / 100⟩ : HFConfig).initializer_range := by
  constructor
  · rfl
  · intro h
    have : (1 / 50 : ℚ) = 1 / 100 := h
    norm_num at this

/-- Witness for C5 at a concrete input: a source state dict holding an
embedding tensor, converted under tied and untied configs. -/
theorem post_model_convert_lm_head_witness :
    ((⟨true, 1 / 50⟩ : HFConfig).tie_word_embeddings = true →
      ∃ out, post_model_convert 0 ⟨true, 1 / 50⟩ ⟨4, 2, false⟩
          [("embed_tokens.weight", 42)] [] = .ok out ∧
        ModelZoo.lookupA "lm_head.weight" out
        = some (TensorVal.stored 42)) ∧
      ((⟨true, 1 / 50⟩ : HFConfig).tie_word_embeddings = false →
        ∃ out, post_model_convert 0 ⟨true, 1 / 50⟩ ⟨4, 2, false⟩
            [("embed_tokens.weight", 42)] [] = .ok out ∧
          ModelZoo.lookupA "lm_head.weight" out
          = some (TensorVal.normalInit 0 (1 / 50) 4 2)) :=
  post_model_convert_lm_head Nat ⟨true, 1 / 50⟩ ⟨4, 2, false⟩
    [("embed_tokens.weight", 42)] [] 42 (by decide)

end ModelZoo.Llama

namespace ModelZoo.CSWriter

/-- A value held in the logical state tree of a `StreamingCSWriterView`:
either the `StreamingCSLeaf` marker standing for a tensor persisted in
the H5 store, or an un-flattened dict / list / tuple skeleton with leaf
markers at tensor positions.  These are exactly the values
`__setitem__` can record. -/
inductive SVal where
  | leaf
  | dict (entries : List (String × SVal))
  | arr (items : List SVal)
  | tup (items : List SVal)

/-- A python value passed to `StreamingCSWriterView.__setitem__`:
a tensor (or any other non-container leaf value) or a nested
dict / list / tuple of values. -/
inductive PyVal where
  | tensor
  | pdict (entries : List (String × PyVal))
  | plist (items : List PyVal)
  | ptup (items : List PyVal)

/-- The python `isinstance(value, (dict, list, tuple))` test. -/
def isContainer : PyVal → Bool
  | .tensor => false
  | _ => true

/-- The python `isinstance(value, StreamingCSLeaf)` test. -/
def isLeaf : SVal → Bool
  | .leaf => true
  | _ => false

mutual

/-- The skeleton recorded for a structured value: the result of
`tree_unflatten([StreamingCSLeaf() for ...], spec)` — the value with
every tensor position replaced by a leaf marker. -/
def skeleton : PyVal → SVal
  | .tensor => .leaf
  | .pdict entries => .dict (skeletonEntries entries)
  | .plist items => .arr (skeletonItems items)
  | .ptup items => .tup (skeletonItems items)

def skeletonEntries : List (String × PyVal) → List (String × SVal)
  | [] => []
  | (k, v) :: rest => (k, skeleton v) :: skeletonEntries rest

def skeletonItems : List PyVal → List SVal
  | [] => []
  | v :: rest => skeleton v :: skeletonItems rest

end

/-- Embedding of `StreamingCSWriterView.__setitem__`
(streaming_checkpoints.py, lines 469-500) on a dict-shaped view state.
A key that already holds a non-leaf (dict/list/tuple skeleton) value
cannot be assigned at all; an existing key (of any kind) cannot be
assigned a dict/list/tuple; otherwise a structured value is flattened
into individually saved leaves and its skeleton is recorded, and a
plain value is saved and recorded as a leaf marker.  The per-tensor
H5 writes have no effect on the state tree and are not modelled. -/
def setItemView (state : List (String × SVal)) (key : String)
    (value : PyVal) : Except String (List (String × SVal)) :=
  if (match ModelZoo.lookupA key state with
      | some cur => !(isLeaf cur)
      | none => false) then
    .error
      "StreamingCSWriter does not support updating an existing key which had a dict/list/tuple value"
  else if isContainer value then
    if (ModelZoo.lookupA key state).isSome then
      .error
        "StreamingCSWriter does not support updating a key which already exists with a dict/list/tuple"
    else
      .ok (ModelZoo.updateA key (skeleton value) state)
  else
    .ok (ModelZoo.updateA key SVal.leaf state)

/-- C7.  Structural-rebind rejection in the hierarchical writer view:
when a key already holds a non-leaf (dict/list/tuple-shaped) value,
`__setitem__` raises a ValueError whatever the new value is; when the
key already exists (leaf or not) and the new value is a
dict/list/tuple, it raises a ValueError; a leaf-to-leaf update
succeeds and leaves the key bound to a leaf.  Hence a key never
changes between structural and leaf shape once set. -/
theorem view_rebind_rules (state : List (String × SVal)) (key : String)
    (value : PyVal) (cur : SVal)
    (hcur : ModelZoo.lookupA key state = some cur) :
    (isLeaf cur = false →
      setItemView state key value
      = .error
        "StreamingCSWriter does not support updating an existing key which had a dict/list/tuple value") ∧
      (isLeaf cur = true → isContainer value = true →
        setItemView state key value
        = .error
          "StreamingCSWriter does not support updating a key which already exists with a dict/list/tuple") ∧
      (isLeaf cur = true → isContainer value = false →
        setItemView state key value
          = .ok (ModelZoo.updateA key SVal.leaf state) ∧
          ModelZoo.lookupA key (ModelZoo.updateA key SVal.leaf state)
          = some SVal.leaf) := by
  have hm : (match ModelZoo.lookupA key state with
      | some cur => !(isLeaf cur)
      | none => false) = !(isLeaf cur) := by rw [hcur]
  refine ⟨?_, ?_, ?_⟩
  · intro hne
    rw [setItemView, if_pos (by rw [hm, hne]; rfl)]
  · intro hleaf hcont
    rw [setItemView, if_neg (by rw [hm, hleaf]; simp), if_pos hcont,
      if_pos (by rw [hcur]; rfl)]
  · intro hleaf hcont
    rw [setItemView, if_neg (by rw [hm, hleaf]; simp), hcont]
    exact ⟨by rw [if_neg (by simp)], ModelZoo.lookupA_updateA_self _ _ _⟩

/-- Witness for C7 at a concrete state: key a holds a dict skeleton
and rejects all writes, key b holds a leaf (shown through the general
theorem at the state with both keys). -/
theorem view_rebind_rules_witness :
    (isLeaf (SVal.dict []) = false →
      setItemView [("a", SVal.dict []), ("b", SVal.leaf)] "a" PyVal.tensor
      = .error
        "StreamingCSWriter does not support updating an existing key which had a dict/list/tuple value") ∧
      (isLeaf (SVal.dict []) = true → isContainer PyVal.tensor = true →
        setItemView [("a", SVal.dict []), ("b", SVal.leaf)] "a" PyVal.tensor
        = .error
          "StreamingCSWriter does not support updating a key which already exists with a dict/list/tuple") ∧
      (isLeaf (SVal.dict []) = true → isContainer PyVal.tensor = false →
        setItemView [("a", SVal.dict []), ("b", SVal.leaf)] "a" PyVal.tensor
          = .ok (ModelZoo.updateA "a" SVal.leaf
            [("a", SVal.dict []), ("b", SVal.leaf)]) ∧
          ModelZoo.lookupA "a" (ModelZoo.updateA "a" SVal.leaf
            [("a", SVal.dict []), ("b", SVal.leaf)])
          = some SVal.leaf) :=
  view_rebind_rules [("a", SVal.dict []), ("b", SVal.leaf)] "a"
    PyVal.tensor (SVal.dict []) rfl

end ModelZoo.CSWriter

namespace ModelZoo

/-- Erase the entry with the given key from an association list
(mirroring removal of a renamed file). -/
def eraseA [DecidableEq κ] (k : κ) : List (κ × β) → List (κ × β)
  | [] => []
  | (k1, v1) :: rest => if k1 = k then rest else (k1, v1) :: eraseA k rest

theorem lookupA_eraseA_ne [DecidableEq κ] (k k2 : κ) (hne : k2 ≠ k) :
    ∀ (l : List (κ × β)), lookupA k2 (eraseA k l) = lookupA k2 l := by
  intro l
  induction l with
  | nil => rfl
  | cons kv rest ih =>
    by_cases h : kv.1 = k
    · rw [eraseA]
      rw [if_pos h, lookupA, if_neg (by rw [h]; exact fun h2 => hne h2.symm)]
    · rw [eraseA]
      rw [if_neg h]
      show lookupA k2 ((kv.1, kv.2) :: eraseA k rest) = _
      rw [lookupA, lookupA]
      by_cases h2 : kv.1 = k2
      · rw [if_pos h2, if_pos h2]
      · rw [if_neg h2, if_neg h2]
        exact ih

theorem lookupA_isSome_of_mem [DecidableEq κ] (kv : κ × β) :
    ∀ (l : List (κ × β)), kv ∈ l → (lookupA kv.1 l).isSome := by
  intro l
  induction l with
  | nil => intro h; simp at h
  | cons kv2 rest ih =>
    intro h
    rw [lookupA]
    by_cases h2 : kv2.1 = kv.1
    · rw [if_pos h2]; rfl
    · rw [if_neg h2]
      rcases List.mem_cons.mp h with h3 | h3
      · exact absurd (by rw [h3]) h2
      · exact ih h3

theorem lookupA_eraseA_self [DecidableEq κ] (k : κ) :
    ∀ (l : List (κ × β)), (l.map Prod.fst).Nodup →
      lookupA k (eraseA k l) = none := by
  intro l
  induction l with
  | nil => intro _; rfl
  | cons kv rest ih =>
    intro hnodup
    rw [List.map_cons, List.nodup_cons] at hnodup
    rw [eraseA]
    by_cases h : kv.1 = k
    · rw [if_pos h]
      subst h
      cases hlook : lookupA kv.1 rest with
      | none => rfl
      | some v =>
        exfalso
        apply hnodup.1
        -- a successful lookup means the key occurs in the tail
        clear ih hnodup
        induction rest with
        | nil => simp [lookupA] at hlook
        | cons kv2 rest2 ih2 =>
          rw [lookupA] at hlook
          by_cases h2 : kv2.1 = kv.1
          · rw [List.map_cons]
            exact List.mem_cons.mpr (Or.inl h2.symm)
          · rw [if_neg h2] at hlook
            rw [List.map_cons]
            exact List.mem_cons.mpr (Or.inr (ih2 hlook))
    · rw [if_neg h]
      show lookupA k ((kv.1, kv.2) :: eraseA k rest) = none
      rw [lookupA, if_neg h]
      exact ih hnodup.2

theorem nodup_keys_updateA [DecidableEq κ] (k : κ) (v : β) :
    ∀ (l : List (κ × β)), (l.map Prod.fst).Nodup →
      ((updateA k v l).map Prod.fst).Nodup := by
  intro l
  induction l with
  | nil => intro _; simp [updateA]
  | cons kv rest ih =>
    intro hnodup
    rw [List.map_cons, List.nodup_cons] at hnodup
    rw [updateA]
    by_cases h : kv.1 = k
    · rw [if_pos h]
      rw [List.map_cons, List.nodup_cons]
      exact ⟨by rw [← h]; exact hnodup.1, hnodup.2⟩
    · rw [if_neg h]
      rw [List.map_cons, List.nodup_cons]
      constructor
      · intro hmem
        -- kv.1 appears among the updated keys: it is either k or an old key
        have : kv.1 ∈ rest.map Prod.fst ∨ kv.1 = k := by
          clear ih hnodup
          induction rest with
          | nil =>
            simp [updateA] at hmem
            exact Or.inr hmem
          | cons kv2 rest2 ih2 =>
            rw [updateA] at hmem
            by_cases h2 : kv2.1 = k
            · rw [if_pos h2] at hmem
              rcases List.mem_cons.mp hmem with h3 | h3
              · exact Or.inr h3
              · exact Or.inl (by rw [List.map_cons]; exact
                  List.mem_cons.mpr (Or.inr h3))
            · rw [if_neg h2] at hmem
              rw [List.map_cons] at hmem
              rcases List.mem_cons.mp hmem with h3 | h3
              · exact Or.inl (by rw [List.map_cons]; exact
                  List.mem_cons.mpr (Or.inl h3))
              · rcases ih2 h3 with h4 | h4
                · exact Or.inl (by rw [List.map_cons]; exact
                    List.mem_cons.mpr (Or.inr h4))
                · exact Or.inr h4
        rcases this with h3 | h3
        · exact hnodup.1 h3
        · exact h h3
      · exact ih hnodup.2

theorem lookupA_mapValues [DecidableEq κ] (k : κ) (g : β → γ) :
    ∀ (l : List (κ × β)),
      lookupA k (l.map (fun kv => (kv.1, g kv.2))) = (lookupA k l).map g := by
  intro l
  induction l with
  | nil => rfl
  | cons kv rest ih =>
    rw [List.map_cons]
    show lookupA k ((kv.1, g kv.2) :: _) = _
    rw [lookupA, lookupA]
    by_cases h : kv.1 = k
    · rw [if_pos h, if_pos h]
      rfl
    · rw [if_neg h, if_neg h]
      exact ih

end ModelZoo

namespace ModelZoo.Streaming

/-- A tensor, represented by its element count and dtype bit width.
`dtype_byte_size` (streaming_checkpoints.py, lines 59-75) is
`bits / 8` bytes per element (with 1 bit for bool), so the tracked
size of a weight is `math.ceil(numel * bits / 8)` bytes; the float
arithmetic is exact for the power-of-two widths involved. -/
structure Tensor where
  numel : Nat
  bits : Nat
deriving DecidableEq

/-- `math.ceil(value.numel() * dtype_byte_size(value.dtype))`, the
byte count attributed to one tensor in the shard accounting. -/
def weightSize (t : Tensor) : Int :=
  Int.ofNat ((t.numel * t.bits + 7) / 8)

/-- A shard filename `pytorch_model-(n+1):05d-of-(total):05d.bin`,
represented by the pair of the two numbers embedded in it; the padded
rendering is injective, so the pair is a faithful stand-in for the
string.  Note the first number is stored 0-indexed here and rendered
1-indexed, exactly as `get_filename` adds 1 when formatting. -/
abbrev FileId := Nat × Nat

/-- Embedding of `StreamingShardedHFWriter.get_filename`
(streaming_checkpoints.py, lines 288-290). -/
def get_filename (file_number : Nat) (total_shards : Nat) : FileId :=
  (file_number, total_shards)

/-- The JSON index written by `save()`:
`metadata.total_size` plus the key-to-shard-file map. -/
structure Manifest where
  total_size : Int
  weight_map : List (String × FileId)
deriving DecidableEq

/-- The state of a `StreamingShardedHFWriter` together with the
checkpoint directory it owns on disk.  The writer fields carry the
names of the corresponding python attributes; `disk` maps each shard
filename to the tensors saved in that file, `index_file` holds the
manifest once written, and `warnings` counts `logging.warn` calls. -/
structure WriterState where
  disk : List (FileId × List (String × Tensor))
  index_file : Option Manifest
  weight_map : List (String × FileId)
  current_file_number : Nat
  last_file_number : Nat
  total_shards_finalized : Nat
  active_file_name : FileId
  active_file_data : List (String × Tensor)
  file_size : List (FileId × Int)
  dirty : Bool
  max_shard_size : Int
  warnings : Nat
deriving DecidableEq

/-- Embedding of `StreamingShardedHFWriter.__init__`
(streaming_checkpoints.py, lines 184-202): a fresh checkpoint
directory (the `os.mkdir` failure on an existing directory is outside
the single-writer model), no weights, shard 0 active and empty with
tracked size 0, shard size limit via `convert_file_size_to_int`. -/
def initWriter (shard_size : SizeArg) : Except String WriterState :=
  (convert_file_size_to_int shard_size).map fun max =>
    { disk := []
      index_file := none
      weight_map := []
      current_file_number := 0
      last_file_number := 0
      total_shards_finalized := 0
      active_file_name := get_filename 0 0
      active_file_data := []
      file_size := [(get_filename 0 0, 0)]
      dirty := false
      max_shard_size := max
      warnings := 0 }

/-- Embedding of `StreamingShardedHFWriter._flush`
(streaming_checkpoints.py, lines 292-298): `torch.save` the active
shard when dirty. -/
def flush (s : WriterState) : WriterState :=
  if s.dirty then
    { s with
      disk := ModelZoo.updateA s.active_file_name s.active_file_data s.disk
      dirty := false }
  else s

/-- Embedding of `StreamingShardedHFWriter._switch_shards`
(streaming_checkpoints.py, lines 300-309): flush, then `torch.load`
the requested shard (failing like `torch.load` when the file does not
exist). -/
def switch_shards (s : WriterState) (new_file : FileId) :
    Except String WriterState :=
  let s := flush s
  match ModelZoo.lookupA new_file s.disk with
  | none => .error "FileNotFoundError: torch.load"
  | some data =>
    .ok { s with active_file_name := new_file, active_file_data := data }

/-- Embedding of `StreamingShardedHFWriter.__setitem__`
(streaming_checkpoints.py, lines 221-286).  Updating an existing key
switches back to the shard holding it, logs a warning when the size
delta pushes that shard past the limit, and applies the update there;
a new key is appended to the active shard unless it would tip it past
the limit, in which case the current shard is flushed and a fresh
shard is started (which may hold a single tensor larger than the
limit).  Dictionary lookups that would raise `KeyError` in python are
errors. -/
def setItem (s : WriterState) (key : String) (value : Tensor) :
    Except String WriterState :=
  match ModelZoo.lookupA key s.weight_map with
  | some file => do
    -- updating a key that has already been seen before
    let s ← if s.active_file_name ≠ file then switch_shards s file
      else .ok s
    match ModelZoo.lookupA key s.active_file_data with
    | none => .error "KeyError: active shard data"
    | some old_value =>
      let old_weight_size := weightSize old_value
      let weight_size := weightSize value
      let delta_size := weight_size - old_weight_size
      match ModelZoo.lookupA s.active_file_name s.file_size with
      | none => .error "KeyError: file_size"
      | some sz =>
        .ok { s with
          warnings :=
            if sz + delta_size > s.max_shard_size then s.warnings + 1
            else s.warnings
          active_file_data := ModelZoo.updateA key value s.active_file_data
          weight_map := ModelZoo.updateA key s.active_file_name s.weight_map
          file_size :=
            ModelZoo.updateA s.active_file_name (sz + delta_size) s.file_size
          dirty := true }
  | none => do
    -- adding a new key that has not been seen before
    let weight_size := weightSize value
    let s ← if s.current_file_number ≠ s.last_file_number then
        switch_shards s
          (get_filename s.last_file_number s.total_shards_finalized)
      else .ok s
    match ModelZoo.lookupA s.active_file_name s.file_size with
    | none => .error "KeyError: file_size"
    | some sz =>
      -- create a new shard if this new weight tips us over the limit
      let s :=
        if sz + weight_size > s.max_shard_size then
          let s := flush s
          let last := s.last_file_number + 1
          let name := get_filename last s.total_shards_finalized
          { s with
            last_file_number := last
            current_file_number := last
            active_file_data := []
            active_file_name := name
            file_size := ModelZoo.updateA name 0 s.file_size }
        else s
      match ModelZoo.lookupA s.active_file_name s.file_size with
      | none => .error "KeyError: file_size"
      | some sz2 =>
        .ok { s with
          active_file_data := ModelZoo.updateA key value s.active_file_data
          weight_map := ModelZoo.updateA key s.active_file_name s.weight_map
          file_size :=
            ModelZoo.updateA s.active_file_name (sz2 + weight_size)
              s.file_size
          dirty := true }

/-- The `os.rename` loop of `save()` (step 2, streaming_checkpoints.py,
lines 328-333): for `i` in `range(count)`, move shard file
`(i, old_total)` to `(i, new_total)`, failing with FileNotFoundError
when a source file is missing. -/
def renameLoop (old_total new_total : Nat) :
    Nat → List (FileId × β) → Except String (List (FileId × β))
  | 0, disk => .ok disk
  | i + 1, disk => do
    let d1 ← renameLoop old_total new_total i disk
    match ModelZoo.lookupA (get_filename i old_total) d1 with
    | none => .error "FileNotFoundError: rename"
    | some data =>
      .ok (ModelZoo.updateA (get_filename i new_total) data
        (ModelZoo.eraseA (get_filename i old_total) d1))

/-- Embedding of `StreamingShardedHFWriter.save`
(streaming_checkpoints.py, lines 311-359): flush the active shard,
compute the total size as the sum of the tracked per-shard sizes,
rename all shard files and rekey `weight_map` / `file_size` when the
finalized shard count changed (the dict-comprehension `KeyError` on a
file missing from the rename table is an error), and write the index
manifest. -/
def save (s : WriterState) : Except String WriterState :=
  let s := flush s
  let total_size := (s.file_size.map (fun kv => kv.2)).sum
  let new_total := s.last_file_number + 1
  if s.total_shards_finalized ≠ new_total then
    match renameLoop s.total_shards_finalized new_total new_total s.disk with
    | .error e => .error e
    | .ok disk2 =>
      if s.weight_map.all (fun kv =>
          decide (kv.2.1 < new_total ∧ kv.2.2 = s.total_shards_finalized))
        then
        if s.file_size.all (fun kv =>
            decide (kv.1.1 < new_total ∧ kv.1.2 = s.total_shards_finalized))
          then
          .ok { s with
            disk := disk2
            weight_map := s.weight_map.map
              (fun kv => (kv.1, get_filename kv.2.1 new_total))
            file_size := s.file_size.map
              (fun kv => (get_filename kv.1.1 new_total, kv.2))
            total_shards_finalized := new_total
            index_file := some
              ⟨total_size, s.weight_map.map
                (fun kv => (kv.1, get_filename kv.2.1 new_total))⟩ }
        else .error "KeyError: file_renames"
      else .error "KeyError: file_renames"
  else
    .ok { s with index_file := some ⟨total_size, s.weight_map⟩ }

/-- Reachable writer states: a fresh writer, or the successful result
of a `__setitem__` or `save()` call on a reachable state. -/
inductive Reach : WriterState → Prop where
  | init : ∀ (shard_size : SizeArg) (s : WriterState),
      initWriter shard_size = .ok s → Reach s
  | set : ∀ (s : WriterState) (key : String) (value : Tensor)
      (s2 : WriterState), Reach s → setItem s key value = .ok s2 → Reach s2
  | save : ∀ (s s2 : WriterState), Reach s → save s = .ok s2 → Reach s2

end ModelZoo.Streaming

namespace ModelZoo

theorem lookupA_updateA_isSome [DecidableEq κ] (k f : κ) (v : β)
    (l : List (κ × β)) :
    (lookupA f (updateA k v l)).isSome ↔ f = k ∨ (lookupA f l).isSome := by
  by_cases h : f = k
  · subst h
    rw [lookupA_updateA_self]
    simp
  · rw [lookupA_updateA_ne _ _ _ h]
    simp [h]

theorem updateA_eq_append [DecidableEq κ] (k : κ) (v : β) :
    ∀ (l : List (κ × β)), lookupA k l = none →
      updateA k v l = l ++ [(k, v)] := by
  intro l
  induction l with
  | nil => intro _; rfl
  | cons kv rest ih =>
    intro h
    rw [lookupA] at h
    by_cases h2 : kv.1 = k
    · rw [if_pos h2] at h
      exact absurd h (by simp)
    · rw [if_neg h2] at h
      rw [updateA]
      rw [if_neg h2, ih h]
      rfl

end ModelZoo

namespace ModelZoo.Streaming

/-- The global state invariant of reachable writer states. -/
structure Inv (s : WriterState) : Prop where
  cur_last : s.current_file_number = s.last_file_number
  total_le : s.total_shards_finalized ≤ s.last_file_number + 1
  active_le : s.active_file_name.2 ≤ s.total_shards_finalized
  fs_keys : ∀ f : FileId, (ModelZoo.lookupA f s.file_size).isSome ↔
    (f.1 ≤ s.last_file_number ∧ f.2 = s.total_shards_finalized)
  wm_file : ∀ k f, ModelZoo.lookupA k s.weight_map = some f →
    (ModelZoo.lookupA f s.file_size).isSome
  data_active : ∀ k,
    ModelZoo.lookupA k s.weight_map = some s.active_file_name →
    (ModelZoo.lookupA k s.active_file_data).isSome
  data_disk : ∀ k f, ModelZoo.lookupA k s.weight_map = some f →
    f ≠ s.active_file_name →
    ∃ data, ModelZoo.lookupA f s.disk = some data ∧
      (ModelZoo.lookupA k data).isSome
  clean_sync : s.dirty = false →
    ∀ k, ModelZoo.lookupA k s.weight_map = some s.active_file_name →
    ∃ data, ModelZoo.lookupA s.active_file_name s.disk = some data ∧
      (ModelZoo.lookupA k data).isSome
  disk_sub : ∀ f : FileId, (ModelZoo.lookupA f s.disk).isSome →
    (ModelZoo.lookupA f s.file_size).isSome
  dirty_active : s.dirty = true →
    (ModelZoo.lookupA s.active_file_name s.file_size).isSome
  disk_nodup : (s.disk.map Prod.fst).Nodup

theorem flush_fields (s : WriterState) :
    (flush s).weight_map = s.weight_map ∧
      (flush s).file_size = s.file_size ∧
      (flush s).active_file_name = s.active_file_name ∧
      (flush s).active_file_data = s.active_file_data ∧
      (flush s).current_file_number = s.current_file_number ∧
      (flush s).last_file_number = s.last_file_number ∧
      (flush s).total_shards_finalized = s.total_shards_finalized ∧
      (flush s).max_shard_size = s.max_shard_size ∧
      (flush s).warnings = s.warnings ∧
      (flush s).index_file = s.index_file ∧
      (flush s).dirty = false := by
  rw [flush]
  by_cases h : s.dirty
  · rw [if_pos h]
    exact ⟨rfl, rfl, rfl, rfl, rfl, rfl, rfl, rfl, rfl, rfl, rfl⟩
  · rw [if_neg h]
    refine ⟨rfl, rfl, rfl, rfl, rfl, rfl, rfl, rfl, rfl, rfl, ?_⟩
    cases hdd : s.dirty
    · rfl
    · exact absurd hdd h

theorem flush_disk_other (s : WriterState) (f : FileId)
    (h : f ≠ s.active_file_name) :
    ModelZoo.lookupA f (flush s).disk = ModelZoo.lookupA f s.disk := by
  rw [flush]
  by_cases hd : s.dirty
  · rw [if_pos hd]
    exact ModelZoo.lookupA_updateA_ne _ _ _ h _
  · rw [if_neg hd]

theorem flush_disk_active (s : WriterState) (hd : s.dirty = true) :
    ModelZoo.lookupA s.active_file_name (flush s).disk
    = some s.active_file_data := by
  rw [flush, if_pos hd]
  exact ModelZoo.lookupA_updateA_self _ _ _

theorem inv_flush (s : WriterState) (hinv : Inv s) : Inv (flush s) := by
  obtain ⟨hwm, hfs, han, had, hcur, hlast, htot, hmax, hwarn, hidx, hdirty⟩ :=
    flush_fields s
  refine ⟨?_, ?_, ?_, ?_, ?_, ?_, ?_, ?_, ?_, ?_, ?_⟩
  · rw [hcur, hlast]; exact hinv.cur_last
  · rw [htot, hlast]; exact hinv.total_le
  · rw [han, htot]; exact hinv.active_le
  · intro f; rw [hfs, hlast, htot]; exact hinv.fs_keys f
  · intro k f h; rw [hfs]; rw [hwm] at h; exact hinv.wm_file k f h
  · intro k h; rw [had]; rw [hwm, han] at h; exact hinv.data_active k h
  · intro k f h hne
    rw [hwm] at h
    rw [han] at hne
    rw [flush_disk_other s f hne]
    exact hinv.data_disk k f h hne
  · intro _ k h
    rw [hwm, han] at h
    rw [han]
    cases hd : s.dirty
    · have hsame : (flush s).disk = s.disk := by
        rw [flush, if_neg (by rw [hd]; simp)]
      rw [hsame]
      exact hinv.clean_sync hd k h
    · rw [flush_disk_active s hd]
      exact ⟨s.active_file_data, rfl, hinv.data_active k h⟩
  · intro f h
    rw [hfs]
    by_cases hf : f = s.active_file_name
    · subst hf
      by_cases hd : s.dirty
      · exact hinv.dirty_active hd
      · rw [flush, if_neg hd] at h
        exact hinv.disk_sub _ h
    · rw [flush_disk_other s f hf] at h
      exact hinv.disk_sub f h
  · intro h
    rw [hdirty] at h
    exact absurd h (by simp)
  · rw [flush]
    by_cases hd : s.dirty
    · rw [if_pos hd]
      exact ModelZoo.nodup_keys_updateA _ _ _ hinv.disk_nodup
    · rw [if_neg hd]
      exact hinv.disk_nodup

end ModelZoo.Streaming

namespace ModelZoo.Streaming

theorem inv_switch (s : WriterState) (file : FileId) (s2 : WriterState)
    (hinv : Inv s) (hok : switch_shards s file = .ok s2)
    (hfs : (ModelZoo.lookupA file s.file_size).isSome) :
    Inv s2 ∧ s2.active_file_name = file ∧ s2.weight_map = s.weight_map ∧
      s2.file_size = s.file_size ∧
      s2.last_file_number = s.last_file_number ∧
      s2.current_file_number = s.current_file_number ∧
      s2.total_shards_finalized = s.total_shards_finalized ∧
      s2.max_shard_size = s.max_shard_size ∧ s2.dirty = false ∧
      s2.warnings = s.warnings ∧ s2.disk = (flush s).disk := by
  obtain ⟨hwm, hfs2, han, had, hcur, hlast, htot, hmax, hwarn, hidx,
    hdirty⟩ := flush_fields s
  rw [switch_shards] at hok
  cases hlook : ModelZoo.lookupA file (flush s).disk with
  | none =>
    rw [hlook] at hok
    exact absurd hok (by simp)
  | some data =>
    rw [hlook] at hok
    have hs2 := Except.ok.inj hok
    subst hs2
    have hcore : ∀ k, ModelZoo.lookupA k s.weight_map = some file →
        (ModelZoo.lookupA k data).isSome := by
      intro k h
      by_cases hf : file = s.active_file_name
      · cases hd : s.dirty with
        | true =>
          rw [hf, flush_disk_active s hd] at hlook
          have hdata : data = s.active_file_data :=
            (Option.some.inj hlook).symm
          rw [hdata]
          exact hinv.data_active k (by rw [← hf]; exact h)
        | false =>
          have hsame : (flush s).disk = s.disk := by
            rw [flush, if_neg (by rw [hd]; simp)]
          rw [hsame] at hlook
          obtain ⟨data2, heq, hmem⟩ := hinv.clean_sync hd k
            (by rw [← hf]; exact h)
          rw [← hf] at heq
          rw [hlook] at heq
          rw [Option.some.inj heq]
          exact hmem
      · obtain ⟨data2, heq, hmem⟩ := hinv.data_disk k file h hf
        rw [flush_disk_other s file hf] at hlook
        rw [hlook] at heq
        rw [Option.some.inj heq]
        exact hmem
    have hfile2 : file.2 = s.total_shards_finalized :=
      ((hinv.fs_keys file).mp hfs).2
    refine ⟨⟨?_, ?_, ?_, ?_, ?_, ?_, ?_, ?_, ?_, ?_, ?_⟩, rfl, hwm, hfs2,
      hlast, hcur, htot, hmax, ?_, hwarn, rfl⟩
    · show (flush s).current_file_number = (flush s).last_file_number
      rw [hcur, hlast]; exact hinv.cur_last
    · show (flush s).total_shards_finalized ≤ (flush s).last_file_number + 1
      rw [htot, hlast]; exact hinv.total_le
    · show file.2 ≤ (flush s).total_shards_finalized
      rw [htot, hfile2]
    · intro f
      show (ModelZoo.lookupA f (flush s).file_size).isSome ↔
        (f.1 ≤ (flush s).last_file_number ∧
          f.2 = (flush s).total_shards_finalized)
      rw [hfs2, hlast, htot]
      exact hinv.fs_keys f
    · intro k f h
      rw [hwm] at h
      show (ModelZoo.lookupA f (flush s).file_size).isSome
      rw [hfs2]
      exact hinv.wm_file k f h
    · intro k h
      rw [hwm] at h
      exact hcore k h
    · intro k f h hne
      rw [hwm] at h
      show ∃ d2, ModelZoo.lookupA f (flush s).disk = some d2 ∧
        (ModelZoo.lookupA k d2).isSome
      by_cases hf : f = s.active_file_name
      · cases hd : s.dirty with
        | true =>
          rw [hf, flush_disk_active s hd]
          exact ⟨s.active_file_data, rfl,
            hinv.data_active k (by rw [← hf]; exact h)⟩
        | false =>
          have hsame : (flush s).disk = s.disk := by
            rw [flush, if_neg (by rw [hd]; simp)]
          rw [hsame, hf]
          exact hinv.clean_sync hd k (by rw [← hf]; exact h)
      · rw [flush_disk_other s f hf]
        exact hinv.data_disk k f h hf
    · intro _ k h
      rw [hwm] at h
      exact ⟨data, hlook, hcore k h⟩
    · intro f h
      show (ModelZoo.lookupA f (flush s).file_size).isSome
      exact (inv_flush s hinv).disk_sub f h
    · intro h
      have h2 : (flush s).dirty = true := h
      rw [hdirty] at h2
      exact absurd h2 (by simp)
    · exact (inv_flush s hinv).disk_nodup
    · exact hdirty

end ModelZoo.Streaming

namespace ModelZoo.Streaming

/-- The state of a fresh writer with shard-size limit `max`, as built
by `__init__`. -/
def emptyState (max : Int) : WriterState :=
  { disk := [], index_file := none, weight_map := [],
    current_file_number := 0, last_file_number := 0,
    total_shards_finalized := 0, active_file_name := get_filename 0 0,
    active_file_data := [], file_size := [(get_filename 0 0, 0)],
    dirty := false, max_shard_size := max, warnings := 0 }

theorem initWriter_ok (shard_size : SizeArg) (s : WriterState)
    (hinit : initWriter shard_size = .ok s) :
    ∃ max, convert_file_size_to_int shard_size = .ok max ∧
      s = emptyState max := by
  rw [initWriter] at hinit
  cases hc : convert_file_size_to_int shard_size with
  | error e =>
    rw [hc] at hinit
    exact absurd hinit (by simp [Except.map])
  | ok max =>
    rw [hc] at hinit
    exact ⟨max, rfl, (Except.ok.inj hinit).symm⟩

/-- C10: calling save() on a writer into which no key was ever inserted
raises FileNotFoundError: the flush writes nothing (the writer is not
dirty), yet the renumbering step renames the never-created shard file
pytorch_model-00001-of-00000.bin; no manifest is produced (index_file
stays empty). -/
theorem save_on_empty_writer (shard_size : SizeArg) (s : WriterState)
    (hinit : initWriter shard_size = .ok s) :
    save s = .error "FileNotFoundError: rename" ∧ s.index_file = none := by
  obtain ⟨max, _, hs⟩ := initWriter_ok shard_size s hinit
  subst hs
  exact ⟨rfl, rfl⟩

theorem save_on_empty_writer_witness :
    initWriter (.int 100) = .ok (emptyState 100) ∧
      save (emptyState 100) = .error "FileNotFoundError: rename" :=
  ⟨rfl, (save_on_empty_writer (.int 100) (emptyState 100) rfl).1⟩

end ModelZoo.Streaming

namespace ModelZoo

theorem mem_map_fst_eraseA [DecidableEq κ] (k : κ) (x : κ) :
    ∀ (l : List (κ × β)), x ∈ (eraseA k l).map Prod.fst →
      x ∈ l.map Prod.fst := by
  intro l
  induction l with
  | nil => intro h; exact absurd h (by simp [eraseA])
  | cons kv rest ih =>
    intro h
    rw [eraseA] at h
    by_cases h2 : kv.1 = k
    · rw [if_pos h2] at h
      rw [List.map_cons]
      exact List.mem_cons.mpr (Or.inr h)
    · rw [if_neg h2] at h
      have h3 : x ∈ (kv.1, kv.2).1 :: (eraseA k rest).map Prod.fst := h
      rw [List.map_cons]
      rcases List.mem_cons.mp h3 with h4 | h4
      · exact List.mem_cons.mpr (Or.inl h4)
      · exact List.mem_cons.mpr (Or.inr (ih h4))

theorem nodup_keys_eraseA [DecidableEq κ] (k : κ) :
    ∀ (l : List (κ × β)), (l.map Prod.fst).Nodup →
      ((eraseA k l).map Prod.fst).Nodup := by
  intro l
  induction l with
  | nil => intro _; simp [eraseA]
  | cons kv rest ih =>
    intro hnodup
    rw [List.map_cons, List.nodup_cons] at hnodup
    rw [eraseA]
    by_cases h : kv.1 = k
    · rw [if_pos h]
      exact hnodup.2
    · rw [if_neg h]
      show (((kv.1, kv.2) :: eraseA k rest).map Prod.fst).Nodup
      rw [List.map_cons, List.nodup_cons]
      exact ⟨fun hmem => hnodup.1 (mem_map_fst_eraseA k kv.1 rest hmem),
        ih hnodup.2⟩

end ModelZoo

namespace ModelZoo.Streaming

/-- After `_flush`, every key recorded in `weight_map` can be found in
the on-disk copy of the shard it is mapped to. -/
theorem flush_covers (s : WriterState) (hinv : Inv s) :
    ∀ k f, ModelZoo.lookupA k s.weight_map = some f →
      ∃ data, ModelZoo.lookupA f (flush s).disk = some data ∧
        (ModelZoo.lookupA k data).isSome := by
  intro k f h
  by_cases hf : f = s.active_file_name
  · cases hd : s.dirty with
    | true =>
      rw [hf, flush_disk_active s hd]
      exact ⟨s.active_file_data, rfl, hinv.data_active k (hf ▸ h)⟩
    | false =>
      have hsame : (flush s).disk = s.disk := by
        rw [flush, if_neg (by rw [hd]; simp)]
      rw [hsame, hf]
      exact hinv.clean_sync hd k (hf ▸ h)
  · rw [flush_disk_other s f hf]
    exact hinv.data_disk k f h hf

end ModelZoo.Streaming

namespace ModelZoo.Streaming

theorem renameLoop_lookup (old new : Nat) (hne : old ≠ new) :
    ∀ (count : Nat) (disk disk2 : List (FileId × β)),
      (disk.map Prod.fst).Nodup →
      renameLoop old new count disk = .ok disk2 →
      ((disk2.map Prod.fst).Nodup ∧
        (∀ i, i < count →
          ∃ data, ModelZoo.lookupA (get_filename i old) disk = some data ∧
            ModelZoo.lookupA (get_filename i new) disk2 = some data) ∧
        (∀ f : FileId, (f.2 = new → count ≤ f.1) →
          (f.2 = old → count ≤ f.1) →
          ModelZoo.lookupA f disk2 = ModelZoo.lookupA f disk) ∧
        (∀ i, i < count →
          ModelZoo.lookupA (get_filename i old) disk2 = none)) := by
  intro count
  induction count with
  | zero =>
    intro disk disk2 hnodup hok
    rw [renameLoop] at hok
    have hd : disk = disk2 := Except.ok.inj hok
    subst hd
    exact ⟨hnodup, fun i hi => absurd hi (by omega),
      fun f _ _ => rfl, fun i hi => absurd hi (by omega)⟩
  | succ count ih =>
    intro disk disk2 hnodup hok
    rw [renameLoop] at hok
    cases hr : renameLoop old new count disk with
    | error e =>
      rw [hr] at hok
      exact absurd hok (by simp [Bind.bind, Except.bind])
    | ok d1 =>
      rw [hr] at hok
      simp only [Bind.bind, Except.bind] at hok
      obtain ⟨hnd1, hmap1, hsame1, hgone1⟩ := ih disk d1 hnodup hr
      cases hl : ModelZoo.lookupA (get_filename count old) d1 with
      | none =>
        rw [hl] at hok
        exact absurd hok (by simp)
      | some data =>
        rw [hl] at hok
        have hd2 : disk2 = ModelZoo.updateA (get_filename count new) data
            (ModelZoo.eraseA (get_filename count old) d1) :=
          (Except.ok.inj hok).symm
        subst hd2
        have hfid : ∀ a b : Nat, get_filename a b = (a, b) := fun a b => rfl
        have hcn_co : get_filename count old ≠ get_filename count new := by
          rw [hfid, hfid]
          intro heq
          exact hne (congrArg Prod.snd heq)
        refine ⟨?_, ?_, ?_, ?_⟩
        · exact ModelZoo.nodup_keys_updateA _ _ _
            (ModelZoo.nodup_keys_eraseA _ _ hnd1)
        · intro i hi
          rcases Nat.lt_succ_iff_lt_or_eq.mp hi with hlt | heq
          · obtain ⟨d, h1, h2⟩ := hmap1 i hlt
            refine ⟨d, h1, ?_⟩
            rw [ModelZoo.lookupA_updateA_ne _ _ _ (by
              rw [hfid, hfid]
              intro heq2
              exact Nat.ne_of_lt hlt (congrArg Prod.fst heq2))]
            rw [ModelZoo.lookupA_eraseA_ne _ _ (by
              rw [hfid, hfid]
              intro heq2
              exact hne ((congrArg Prod.snd heq2).symm))]
            exact h2
          · subst heq
            have hdisk : ModelZoo.lookupA (get_filename i old) d1
                = ModelZoo.lookupA (get_filename i old) disk :=
              hsame1 (get_filename i old) (fun _ => Nat.le_refl i)
                (fun _ => Nat.le_refl i)
            refine ⟨data, by rw [← hdisk]; exact hl, ?_⟩
            rw [ModelZoo.lookupA_updateA_self]
        · intro f h1 h2
          have hfu : f ≠ get_filename count new := by
            intro heq
            have h3 : count + 1 ≤ f.1 := h1 (congrArg Prod.snd heq)
            have h4 : f.1 = count := congrArg Prod.fst heq
            omega
          have hfe : f ≠ get_filename count old := by
            intro heq
            have h3 : count + 1 ≤ f.1 := h2 (congrArg Prod.snd heq)
            have h4 : f.1 = count := congrArg Prod.fst heq
            omega
          rw [ModelZoo.lookupA_updateA_ne _ _ _ hfu]
          rw [ModelZoo.lookupA_eraseA_ne _ _ hfe]
          exact hsame1 f (fun hh => Nat.le_of_succ_le (h1 hh))
            (fun hh => Nat.le_of_succ_le (h2 hh))
        · intro i hi
          rcases Nat.lt_succ_iff_lt_or_eq.mp hi with hlt | heq
          · rw [ModelZoo.lookupA_updateA_ne _ _ _ (by
              rw [hfid, hfid]
              intro heq2
              exact hne (congrArg Prod.snd heq2))]
            rw [ModelZoo.lookupA_eraseA_ne _ _ (by
              rw [hfid, hfid]
              intro heq2
              exact Nat.ne_of_lt hlt (congrArg Prod.fst heq2))]
            exact hgone1 i hlt
          · subst heq
            rw [ModelZoo.lookupA_updateA_ne _ _ _ hcn_co]
            exact ModelZoo.lookupA_eraseA_self _ _ hnd1
        
end ModelZoo.Streaming

namespace ModelZoo.Streaming

theorem lookupA_rekey_isSome (new : Nat) (f : FileId) :
    ∀ (l : List (FileId × β)),
      (ModelZoo.lookupA f
        (l.map fun kv => ((kv.1.1, new), kv.2))).isSome ↔
      (f.2 = new ∧ ∃ c, (ModelZoo.lookupA ((f.1, c) : FileId) l).isSome) := by
  intro l
  induction l with
  | nil =>
    constructor
    · intro h
      exact absurd h (by simp [ModelZoo.lookupA])
    · intro ⟨_, c, h⟩
      exact absurd h (by simp [ModelZoo.lookupA])
  | cons kv rest ih =>
    rw [List.map_cons]
    show (ModelZoo.lookupA f (((kv.1.1, new), kv.2) :: _)).isSome ↔ _
    rw [ModelZoo.lookupA]
    by_cases h : ((kv.1.1, new) : FileId) = f
    · rw [if_pos h]
      constructor
      · intro _
        refine ⟨(congrArg Prod.snd h).symm, kv.1.2, ?_⟩
        rw [ModelZoo.lookupA]
        rw [if_pos (by
          have h1 : f.1 = kv.1.1 := (congrArg Prod.fst h).symm
          rw [h1])]
        rfl
      · intro _
        rfl
    · rw [if_neg h]
      rw [ih]
      constructor
      · intro ⟨hf2, c, hc⟩
        refine ⟨hf2, c, ?_⟩
        rw [ModelZoo.lookupA]
        by_cases h2 : kv.1 = ((f.1, c) : FileId)
        · rw [if_pos h2]
          rfl
        · rw [if_neg h2]
          exact hc
      · intro ⟨hf2, c, hc⟩
        refine ⟨hf2, c, ?_⟩
        rw [ModelZoo.lookupA] at hc
        by_cases h2 : kv.1 = ((f.1, c) : FileId)
        · exfalso
          apply h
          have h3 : kv.1.1 = f.1 := by rw [h2]
          rw [h3, ← hf2]
        · rw [if_neg h2] at hc
          exact hc

end ModelZoo.Streaming

namespace ModelZoo.Streaming

theorem inv_after_rename (s : WriterState)
    (disk2 : List (FileId × List (String × Tensor))) (hinv : Inv s)
    (hc : (flush s).total_shards_finalized
      ≠ (flush s).last_file_number + 1)
    (hr : renameLoop (flush s).total_shards_finalized
      ((flush s).last_file_number + 1) ((flush s).last_file_number + 1)
      (flush s).disk = .ok disk2) :
    Inv { flush s with
      disk := disk2,
      weight_map := (flush s).weight_map.map
        (fun kv => (kv.1, get_filename kv.2.1
          ((flush s).last_file_number + 1))),
      file_size := (flush s).file_size.map
        (fun kv => (get_filename kv.1.1
          ((flush s).last_file_number + 1), kv.2)),
      total_shards_finalized := (flush s).last_file_number + 1,
      index_file := some
        ⟨((flush s).file_size.map (fun kv => kv.2)).sum,
          (flush s).weight_map.map
            (fun kv => (kv.1, get_filename kv.2.1
              ((flush s).last_file_number + 1)))⟩ } := by
  have hinvF := inv_flush s hinv
  obtain ⟨hnd2, hmap2, hsame2, hgone2⟩ := renameLoop_lookup
    (flush s).total_shards_finalized ((flush s).last_file_number + 1) hc
    ((flush s).last_file_number + 1) (flush s).disk disk2
    hinvF.disk_nodup hr
  have hltTot : (flush s).total_shards_finalized
      < (flush s).last_file_number + 1 :=
    Nat.lt_of_le_of_ne hinvF.total_le hc
  -- unpacking a lookup in the rekeyed weight map
  have hwm2 : ∀ (k : String) (f : FileId),
      ModelZoo.lookupA k ((flush s).weight_map.map
        (fun kv => (kv.1, get_filename kv.2.1
          ((flush s).last_file_number + 1)))) = some f →
      ∃ f0 : FileId, ModelZoo.lookupA k (flush s).weight_map = some f0 ∧
        f = (f0.1, (flush s).last_file_number + 1) := by
    intro k f h
    rw [ModelZoo.lookupA_mapValues k
      (fun f0 => get_filename f0.1 ((flush s).last_file_number + 1))
      (flush s).weight_map] at h
    cases h0 : ModelZoo.lookupA k (flush s).weight_map with
    | none =>
      rw [h0] at h
      exact absurd h (by simp)
    | some f0 =>
      rw [h0] at h
      exact ⟨f0, rfl, (Option.some.inj h).symm⟩
  -- bounds on the pre-rename file of a mapped key
  have hbound : ∀ (k : String) (f0 : FileId),
      ModelZoo.lookupA k (flush s).weight_map = some f0 →
      f0.1 ≤ (flush s).last_file_number ∧
        f0.2 = (flush s).total_shards_finalized := by
    intro k f0 h
    exact (hinvF.fs_keys f0).mp (hinvF.wm_file k f0 h)
  have hfs2eq : (flush s).file_size.map
      (fun kv => (get_filename kv.1.1
        ((flush s).last_file_number + 1), kv.2))
      = (flush s).file_size.map
        (fun kv => ((kv.1.1, (flush s).last_file_number + 1), kv.2)) := rfl
  refine ⟨?_, ?_, ?_, ?_, ?_, ?_, ?_, ?_, ?_, ?_, ?_⟩
  · exact hinvF.cur_last
  · exact Nat.le_refl _
  · show (flush s).active_file_name.2 ≤ (flush s).last_file_number + 1
    exact Nat.le_of_lt (Nat.lt_of_le_of_lt hinvF.active_le hltTot)
  · intro f
    show (ModelZoo.lookupA f ((flush s).file_size.map _)).isSome ↔ _
    rw [hfs2eq, lookupA_rekey_isSome]
    constructor
    · intro ⟨h1, c, h2⟩
      exact ⟨((hinvF.fs_keys (f.1, c)).mp h2).1, h1⟩
    · intro ⟨h1, h2⟩
      exact ⟨h2, (flush s).total_shards_finalized,
        (hinvF.fs_keys (f.1, (flush s).total_shards_finalized)).mpr
          ⟨h1, rfl⟩⟩
  · intro k f h
    obtain ⟨f0, h0, hf⟩ := hwm2 k f h
    obtain ⟨hb1, hb2⟩ := hbound k f0 h0
    show (ModelZoo.lookupA f ((flush s).file_size.map _)).isSome
    rw [hfs2eq, lookupA_rekey_isSome]
    subst hf
    exact ⟨rfl, f0.2, by
      have : ((f0.1, f0.2) : FileId) = f0 := rfl
      rw [this]
      exact hinvF.wm_file k f0 h0⟩
  · intro k h
    obtain ⟨f0, h0, hf⟩ := hwm2 k _ h
    exfalso
    have h2 : (flush s).active_file_name.2
        = (flush s).last_file_number + 1 := congrArg Prod.snd hf
    have h3 := hinvF.active_le
    omega
  · intro k f h _
    obtain ⟨f0, h0, hf⟩ := hwm2 k f h
    obtain ⟨hb1, hb2⟩ := hbound k f0 h0
    obtain ⟨data, hdisk, hmem⟩ := flush_covers s hinv k f0 (by
      have hwmeq : (flush s).weight_map = s.weight_map :=
        (flush_fields s).1
      rw [← hwmeq]
      exact h0)
    obtain ⟨d, hd1, hd2⟩ := hmap2 f0.1 (by omega)
    have hsame : get_filename f0.1 (flush s).total_shards_finalized
        = f0 := by
      rw [← hb2]
      rfl
    have hdd : d = data := by
      rw [hsame] at hd1
      rw [hdisk] at hd1
      exact (Option.some.inj hd1).symm
    refine ⟨d, ?_, by rw [hdd]; exact hmem⟩
    show ModelZoo.lookupA f disk2 = some d
    rw [hf]
    exact hd2
  · intro _ k h
    obtain ⟨f0, h0, hf⟩ := hwm2 k _ h
    exfalso
    have h2 : (flush s).active_file_name.2
        = (flush s).last_file_number + 1 := congrArg Prod.snd hf
    have h3 := hinvF.active_le
    omega
  · intro f hsome
    show (ModelZoo.lookupA f ((flush s).file_size.map _)).isSome
    rw [hfs2eq, lookupA_rekey_isSome]
    by_cases hf2 : f.2 = (flush s).last_file_number + 1
    · by_cases hf1 : f.1 < (flush s).last_file_number + 1
      · obtain ⟨d, hd1, hd2⟩ := hmap2 f.1 hf1
        refine ⟨hf2, (flush s).total_shards_finalized, ?_⟩
        have hd1b : ModelZoo.lookupA
            ((f.1, (flush s).total_shards_finalized) : FileId)
            (flush s).disk = some d := hd1
        exact hinvF.disk_sub _ (by rw [hd1b]; rfl)
      · exfalso
        have hsame : ModelZoo.lookupA f disk2
            = ModelZoo.lookupA f (flush s).disk :=
          hsame2 f (fun _ => Nat.le_of_not_lt hf1)
            (fun h => absurd (h.symm.trans hf2) hc)
        rw [hsame] at hsome
        have := ((hinvF.fs_keys f).mp (hinvF.disk_sub f hsome)).2
        omega
    · by_cases hfold : f.2 = (flush s).total_shards_finalized
      · by_cases hf1 : f.1 < (flush s).last_file_number + 1
        · exfalso
          have h0 := hgone2 f.1 hf1
          have hfe : get_filename f.1 (flush s).total_shards_finalized
              = f := by
            rw [← hfold]
            rfl
          rw [hfe] at h0
          rw [h0] at hsome
          exact Bool.noConfusion hsome
        · exfalso
          have hsame : ModelZoo.lookupA f disk2
              = ModelZoo.lookupA f (flush s).disk :=
            hsame2 f (fun h => absurd h hf2)
              (fun _ => Nat.le_of_not_lt hf1)
          rw [hsame] at hsome
          have h5 := ((hinvF.fs_keys f).mp (hinvF.disk_sub f hsome)).1
          omega
      · exfalso
        have hsame : ModelZoo.lookupA f disk2
            = ModelZoo.lookupA f (flush s).disk :=
          hsame2 f (fun h => absurd h hf2) (fun h => absurd h hfold)
        rw [hsame] at hsome
        have := ((hinvF.fs_keys f).mp (hinvF.disk_sub f hsome)).2
        exact absurd this hfold
  · intro h
    have h2 : (flush s).dirty = true := h
    rw [(flush_fields s).2.2.2.2.2.2.2.2.2.2] at h2
    exact absurd h2 (by simp)
  · exact hnd2

end ModelZoo.Streaming

namespace ModelZoo.Streaming

theorem inv_save (s s2 : WriterState) (hinv : Inv s)
    (hok : save s = .ok s2) :
    Inv s2 ∧ s2.dirty = false ∧
      s2.total_shards_finalized = s2.last_file_number + 1 ∧
      s2.index_file = some ⟨(s2.file_size.map fun kv => kv.2).sum,
        s2.weight_map⟩ := by
  simp only [save] at hok
  split at hok
  · rename_i hc
    split at hok
    · exact Except.noConfusion hok
    · rename_i disk2 hr
      split at hok
      · split at hok
        · have hs2 := Except.ok.inj hok
          subst hs2
          refine ⟨inv_after_rename s disk2 hinv hc hr, ?_, ?_, ?_⟩
          · show (flush s).dirty = false
            exact (flush_fields s).2.2.2.2.2.2.2.2.2.2
          · show (flush s).last_file_number + 1
              = (flush s).last_file_number + 1
            rfl
          · have hsum : ((List.map
                (fun kv => (get_filename kv.1.1
                  ((flush s).last_file_number + 1), kv.2))
                (flush s).file_size).map (fun kv => kv.2)).sum
                = ((flush s).file_size.map (fun kv => kv.2)).sum := by
              rw [List.map_map]
              rfl
            exact congrArg (fun z => some
              (⟨z, List.map (fun kv => (kv.1, get_filename kv.2.1
                ((flush s).last_file_number + 1)))
                (flush s).weight_map⟩ : Manifest)) hsum.symm
        · exact Except.noConfusion hok
      · exact Except.noConfusion hok
  · rename_i hc
    have heqt : (flush s).total_shards_finalized
        = (flush s).last_file_number + 1 := not_ne_iff.mp hc
    have hs2 := Except.ok.inj hok
    subst hs2
    have hF := inv_flush s hinv
    refine ⟨⟨hF.cur_last, hF.total_le, hF.active_le, hF.fs_keys,
      hF.wm_file, hF.data_active, hF.data_disk, hF.clean_sync,
      hF.disk_sub, hF.dirty_active, hF.disk_nodup⟩, ?_, ?_, ?_⟩
    · exact (flush_fields s).2.2.2.2.2.2.2.2.2.2
    · exact heqt
    · rfl

end ModelZoo.Streaming

namespace ModelZoo.Streaming

theorem inv_apply (s1 : WriterState) (key : String) (value : Tensor)
    (X : Int) (W : Nat) (hinv1 : Inv s1)
    (hfs : (ModelZoo.lookupA s1.active_file_name s1.file_size).isSome) :
    Inv { s1 with
      warnings := W,
      active_file_data := ModelZoo.updateA key value s1.active_file_data,
      weight_map :=
        ModelZoo.updateA key s1.active_file_name s1.weight_map,
      file_size :=
        ModelZoo.updateA s1.active_file_name X s1.file_size,
      dirty := true } := by
  have hactive := (hinv1.fs_keys s1.active_file_name).mp hfs
  refine ⟨hinv1.cur_last, hinv1.total_le, hinv1.active_le, ?_, ?_, ?_,
    ?_, ?_, ?_, ?_, hinv1.disk_nodup⟩
  · intro f
    show (ModelZoo.lookupA f
      (ModelZoo.updateA s1.active_file_name X s1.file_size)).isSome ↔ _
    rw [ModelZoo.lookupA_updateA_isSome]
    constructor
    · rintro (h | h)
      · rw [h]
        exact hactive
      · exact (hinv1.fs_keys f).mp h
    · intro h
      exact Or.inr ((hinv1.fs_keys f).mpr h)
  · intro k2 f h
    show (ModelZoo.lookupA f
      (ModelZoo.updateA s1.active_file_name X s1.file_size)).isSome
    rw [ModelZoo.lookupA_updateA_isSome]
    by_cases hk : k2 = key
    · subst hk
      rw [ModelZoo.lookupA_updateA_self] at h
      exact Or.inl (Option.some.inj h).symm
    · rw [ModelZoo.lookupA_updateA_ne _ _ _ hk] at h
      exact Or.inr (hinv1.wm_file k2 f h)
  · intro k2 h
    show (ModelZoo.lookupA k2
      (ModelZoo.updateA key value s1.active_file_data)).isSome
    rw [ModelZoo.lookupA_updateA_isSome]
    by_cases hk : k2 = key
    · exact Or.inl hk
    · rw [ModelZoo.lookupA_updateA_ne _ _ _ hk] at h
      exact Or.inr (hinv1.data_active k2 h)
  · intro k2 f h hne
    by_cases hk : k2 = key
    · subst hk
      rw [ModelZoo.lookupA_updateA_self] at h
      exact absurd (Option.some.inj h).symm hne
    · rw [ModelZoo.lookupA_updateA_ne _ _ _ hk] at h
      exact hinv1.data_disk k2 f h hne
  · intro h
    exact Bool.noConfusion (show true = false from h)
  · intro f h
    show (ModelZoo.lookupA f
      (ModelZoo.updateA s1.active_file_name X s1.file_size)).isSome
    rw [ModelZoo.lookupA_updateA_isSome]
    exact Or.inr (hinv1.disk_sub f h)
  · intro _
    show (ModelZoo.lookupA s1.active_file_name
      (ModelZoo.updateA s1.active_file_name X s1.file_size)).isSome
    rw [ModelZoo.lookupA_updateA_self]
    rfl

theorem inv_new_shard (s : WriterState) (hinv : Inv s) :
    Inv { flush s with
      last_file_number := (flush s).last_file_number + 1,
      current_file_number := (flush s).last_file_number + 1,
      active_file_data := [],
      active_file_name := get_filename ((flush s).last_file_number + 1)
        (flush s).total_shards_finalized,
      file_size := ModelZoo.updateA
        (get_filename ((flush s).last_file_number + 1)
          (flush s).total_shards_finalized) 0 (flush s).file_size } := by
  have hinvF := inv_flush s hinv
  have hdirty : (flush s).dirty = false :=
    (flush_fields s).2.2.2.2.2.2.2.2.2.2
  have hname2 : (get_filename ((flush s).last_file_number + 1)
      (flush s).total_shards_finalized).2
      = (flush s).total_shards_finalized := rfl
  have hnotin : ∀ k2 : String,
      ModelZoo.lookupA k2 (flush s).weight_map
        = some (get_filename ((flush s).last_file_number + 1)
          (flush s).total_shards_finalized) → False := by
    intro k2 h
    have h2 := (hinvF.fs_keys _).mp (hinvF.wm_file k2 _ h)
    have h3 : (get_filename ((flush s).last_file_number + 1)
        (flush s).total_shards_finalized).1
        = (flush s).last_file_number + 1 := rfl
    omega
  refine ⟨rfl, ?_, ?_, ?_, ?_, ?_, ?_, ?_, ?_, ?_, hinvF.disk_nodup⟩
  · show (flush s).total_shards_finalized
      ≤ (flush s).last_file_number + 1 + 1
    exact Nat.le_succ_of_le hinvF.total_le
  · show (get_filename ((flush s).last_file_number + 1)
      (flush s).total_shards_finalized).2
      ≤ (flush s).total_shards_finalized
    rw [hname2]
  · intro f
    show (ModelZoo.lookupA f (ModelZoo.updateA _ 0
      (flush s).file_size)).isSome ↔
      f.1 ≤ (flush s).last_file_number + 1 ∧
        f.2 = (flush s).total_shards_finalized
    rw [ModelZoo.lookupA_updateA_isSome]
    constructor
    · rintro (h | h)
      · have h1 : f.1 = (flush s).last_file_number + 1 :=
          congrArg Prod.fst h
        have h2 : f.2 = (flush s).total_shards_finalized :=
          congrArg Prod.snd h
        omega
    
      · have := (hinvF.fs_keys f).mp h
        omega
    · intro ⟨h1, h2⟩
      by_cases hl : f.1 = (flush s).last_file_number + 1
      · refine Or.inl ?_
        have : f = (f.1, f.2) := rfl
        rw [this, hl, h2]
        rfl
      · exact Or.inr ((hinvF.fs_keys f).mpr ⟨by omega, h2⟩)
  · intro k2 f h
    show (ModelZoo.lookupA f (ModelZoo.updateA _ 0
      (flush s).file_size)).isSome
    rw [ModelZoo.lookupA_updateA_isSome]
    exact Or.inr (hinvF.wm_file k2 f h)
  · intro k2 h
    exact absurd h (fun h2 => hnotin k2 h2)
  · intro k2 f h hne
    have hwmeq : (flush s).weight_map = s.weight_map := (flush_fields s).1
    exact flush_covers s hinv k2 f (by rw [← hwmeq]; exact h)
  · intro _ k2 h
    exact absurd h (fun h2 => hnotin k2 h2)
  · intro f h
    show (ModelZoo.lookupA f (ModelZoo.updateA _ 0
      (flush s).file_size)).isSome
    rw [ModelZoo.lookupA_updateA_isSome]
    exact Or.inr (hinvF.disk_sub f h)
  · intro h
    have h2 : (flush s).dirty = true := h
    rw [hdirty] at h2
    exact Bool.noConfusion h2

end ModelZoo.Streaming

namespace ModelZoo.Streaming

theorem inv_setItem (s : WriterState) (key : String) (value : Tensor)
    (s2 : WriterState) (hinv : Inv s)
    (hok : setItem s key value = .ok s2) : Inv s2 := by
  simp only [setItem] at hok
  split at hok
  · -- update branch: the key is already present in weight_map
    rename_i file hmap
    by_cases hsw : s.active_file_name ≠ file
    · rw [if_pos hsw] at hok
      cases hswr : switch_shards s file with
      | error e =>
        rw [hswr] at hok
        exact Except.noConfusion
          (show Except.error e = Except.ok s2 from hok)
      | ok s1 =>
        rw [hswr] at hok
        simp only [Bind.bind, Except.bind] at hok
        have hsw1 := inv_switch s file s1 hinv hswr
          (hinv.wm_file key file hmap)
        split at hok
        · exact Except.noConfusion hok
        · rename_i old_value hold
          split at hok
          · exact Except.noConfusion hok
          · rename_i sz hsz
            have hs2 := Except.ok.inj hok
            subst hs2
            exact inv_apply s1 key value _ _ hsw1.1
              (by rw [hsz]; rfl)
    · rw [if_neg hsw] at hok
      simp only [Bind.bind, Except.bind] at hok
      split at hok
      · exact Except.noConfusion hok
      · rename_i old_value hold
        split at hok
        · exact Except.noConfusion hok
        · rename_i sz hsz
          have hs2 := Except.ok.inj hok
          subst hs2
          exact inv_apply s key value _ _ hinv (by rw [hsz]; rfl)
  · -- new-key branch
    rename_i hmap
    rw [if_neg (fun h => h hinv.cur_last)] at hok
    simp only [Bind.bind, Except.bind] at hok
    split at hok
    · exact Except.noConfusion hok
    · rename_i sz hsz
      split at hok
      · exact Except.noConfusion hok
      · rename_i sz2 hsz2
        have hs2 := Except.ok.inj hok
        subst hs2
        by_cases hover : sz + weightSize value > s.max_shard_size
        · rw [if_pos hover] at hsz2 ⊢
          exact inv_apply _ key value _ _ (inv_new_shard s hinv)
            (by rw [hsz2]; rfl)
        · rw [if_neg hover] at hsz2 ⊢
          exact inv_apply s key value _ _ hinv (by rw [hsz2]; rfl)

end ModelZoo.Streaming

namespace ModelZoo.Streaming

theorem inv_init (max : Int) : Inv (emptyState max) := by
  refine ⟨rfl, Nat.zero_le 1, Nat.le_refl 0, ?_, ?_, ?_, ?_, ?_, ?_,
    ?_, ?_⟩
  · intro f
    obtain ⟨a, b⟩ := f
    show (ModelZoo.lookupA ((a, b) : FileId)
      [((get_filename 0 0 : FileId), (0 : Int))]).isSome ↔
      a ≤ 0 ∧ b = 0
    rw [ModelZoo.lookupA]
    by_cases he : (get_filename 0 0 : FileId) = (a, b)
    · rw [if_pos he]
      have h1 : 0 = a := congrArg Prod.fst he
      have h2 : 0 = b := congrArg Prod.snd he
      constructor
      · intro _
        omega
      · intro _
        rfl
    · rw [if_neg he]
      constructor
      · intro h
        exact absurd h (by simp [ModelZoo.lookupA])
      · intro ⟨h1, h2⟩
        exfalso
        apply he
        have ha : a = 0 := Nat.le_zero.mp h1
        subst ha
        subst h2
        rfl
  · intro k f h
    exact absurd h (by simp [ModelZoo.lookupA])
  · intro k h
    exact absurd h (by simp [ModelZoo.lookupA])
  · intro k f h _
    exact absurd h (by simp [ModelZoo.lookupA])
  · intro _ k h
    exact absurd h (by simp [ModelZoo.lookupA])
  · intro f h
    exact absurd h (by simp [ModelZoo.lookupA])
  · intro h
    exact Bool.noConfusion (show false = true from h)
  · show (([] : List (FileId × List (String × Tensor))).map
      Prod.fst).Nodup
    simp

/-- Every reachable writer state satisfies the master invariant. -/
theorem inv_reach (s : WriterState) (h : Reach s) : Inv s := by
  induction h with
  | init shard_size s hinit =>
    obtain ⟨max, _, hs⟩ := initWriter_ok shard_size s hinit
    rw [hs]
    exact inv_init max
  | set s key value s2 _ hok ih => exact inv_setItem s key value s2 ih hok
  | save s s2 _ hok ih => exact (inv_save s s2 ih hok).1

end ModelZoo.Streaming

namespace ModelZoo.Streaming

theorem setItem_update_eq (s : WriterState) (key : String)
    (value : Tensor) (f : FileId) (s1 : WriterState) (old : Tensor)
    (sz : Int)
    (hmap : ModelZoo.lookupA key s.weight_map = some f)
    (hstep : (if s.active_file_name ≠ f then switch_shards s f
      else .ok s) = .ok s1)
    (hold : ModelZoo.lookupA key s1.active_file_data = some old)
    (hsz : ModelZoo.lookupA s1.active_file_name s1.file_size = some sz) :
    setItem s key value = .ok { s1 with
      warnings := if sz + (weightSize value - weightSize old)
          > s1.max_shard_size then s1.warnings + 1 else s1.warnings,
      active_file_data := ModelZoo.updateA key value s1.active_file_data,
      weight_map :=
        ModelZoo.updateA key s1.active_file_name s1.weight_map,
      file_size := ModelZoo.updateA s1.active_file_name
        (sz + (weightSize value - weightSize old)) s1.file_size,
      dirty := true } := by
  simp only [setItem, hmap]
  by_cases hc : s.active_file_name ≠ f
  · rw [if_pos hc] at hstep ⊢
    rw [hstep]
    simp only [Bind.bind, Except.bind]
    rw [hold, hsz]
  · rw [if_neg hc] at hstep ⊢
    have h1 := Except.ok.inj hstep
    subst h1
    simp only [Bind.bind, Except.bind]
    rw [hold, hsz]

end ModelZoo.Streaming

namespace ModelZoo.Streaming

/-- C4: after save() succeeds on a reachable writer, the written
manifest records the rekeyed weight map and the total size equal to the
sum of the tracked per-shard sizes; every key in the manifest points to
a shard file present on disk whose embedded numbers are final (shard
index 1-indexed between 1 and the total, total equal to the finalized
shard count); and a second save() is a no-op returning the same
state. -/
theorem manifest_consistency (s s2 : WriterState) (hreach : Reach s)
    (hok : save s = .ok s2) :
    ∃ m : Manifest, s2.index_file = some m ∧
      m.total_size = (s2.file_size.map (fun kv => kv.2)).sum ∧
      m.weight_map = s2.weight_map ∧
      (∀ k f, ModelZoo.lookupA k m.weight_map = some f →
        (ModelZoo.lookupA f s2.disk).isSome ∧
        f.2 = s2.total_shards_finalized ∧
        f.1 + 1 ≤ s2.total_shards_finalized) ∧
      save s2 = .ok s2 := by
  have hinv := inv_reach s hreach
  obtain ⟨hinv2, hdirty2, htot2, hidx2⟩ := inv_save s s2 hinv hok
  refine ⟨⟨(s2.file_size.map (fun kv => kv.2)).sum, s2.weight_map⟩,
    hidx2, rfl, rfl, ?_, ?_⟩
  · intro k f h
    have hfs := hinv2.wm_file k f h
    have hkeys := (hinv2.fs_keys f).mp hfs
    refine ⟨?_, hkeys.2, by omega⟩
    by_cases hf : f = s2.active_file_name
    · obtain ⟨data, hd, _⟩ := hinv2.clean_sync hdirty2 k
        (by rw [← hf]; exact h)
      rw [hf, hd]
      rfl
    · obtain ⟨data, hd, _⟩ := hinv2.data_disk k f h hf
      rw [hd]
      rfl
  · have hfl : flush s2 = s2 := by
      rw [flush, if_neg (by rw [hdirty2]; simp)]
    simp only [save]
    rw [hfl]
    rw [if_neg (fun hcon => hcon htot2)]
    have hrec : { s2 with index_file := some (Manifest.mk
        ((s2.file_size.map (fun kv => kv.2)).sum) s2.weight_map) }
        = s2 := by
      rw [← hidx2]
    exact congrArg Except.ok hrec

end ModelZoo.Streaming

namespace ModelZoo.Streaming

/-- The tensor the writer currently holds for `key` in shard `f`: read
from memory when `f` is the active shard, otherwise from the on-disk
copy of shard `f` as it stands after flushing the active shard. -/
def storedTensor (s : WriterState) (f : FileId) (key : String) :
    Option Tensor :=
  if f = s.active_file_name then
    ModelZoo.lookupA key s.active_file_data
  else
    match ModelZoo.lookupA f (flush s).disk with
    | none => none
    | some data => ModelZoo.lookupA key data

/-- C8: updating an existing key never raises: on any reachable writer
state, __setitem__ on a key mapped to shard f succeeds, switches to
shard f (the resulting active shard is f), stores the new tensor,
adjusts the tracked size of f by the size delta against the previously
stored tensor, and bumps the warning count exactly when the new tracked
size exceeds the shard limit. -/
theorem update_overrun_nonfatal (s : WriterState) (key : String)
    (value : Tensor) (f : FileId) (hreach : Reach s)
    (hmap : ModelZoo.lookupA key s.weight_map = some f) :
    ∃ (s2 : WriterState) (old : Tensor) (sz : Int),
      setItem s key value = .ok s2 ∧
      storedTensor s f key = some old ∧
      s2.active_file_name = f ∧
      ModelZoo.lookupA key s2.active_file_data = some value ∧
      ModelZoo.lookupA f s.file_size = some sz ∧
      ModelZoo.lookupA f s2.file_size
        = some (sz + (weightSize value - weightSize old)) ∧
      s2.warnings = (if sz + (weightSize value - weightSize old)
          > s.max_shard_size then s.warnings + 1 else s.warnings) := by
  have hinv := inv_reach s hreach
  have hszS := hinv.wm_file key f hmap
  cases hsz0 : ModelZoo.lookupA f s.file_size with
  | none =>
    rw [hsz0] at hszS
    exact absurd hszS (by simp)
  | some sz =>
  by_cases hc : s.active_file_name ≠ f
  · obtain ⟨data, hd, hmem⟩ := flush_covers s hinv key f hmap
    cases hold0 : ModelZoo.lookupA key data with
    | none =>
      rw [hold0] at hmem
      exact absurd hmem (by simp)
    | some old =>
    have hsw : switch_shards s f = .ok { flush s with
        active_file_name := f, active_file_data := data } := by
      simp only [switch_shards, hd]
    obtain ⟨hwm, hfs2, han, had, hcur, hlast, htot, hmax, hwarn, hidx,
      hdirty⟩ := flush_fields s
    have heq := setItem_update_eq s key value f
      { flush s with active_file_name := f, active_file_data := data }
      old sz hmap (by rw [if_pos hc]; exact hsw) hold0
      (by
        show ModelZoo.lookupA f (flush s).file_size = some sz
        rw [hfs2]
        exact hsz0)
    refine ⟨_, old, sz, heq, ?_, rfl, ?_, rfl, ?_, ?_⟩
    · rw [storedTensor, if_neg (fun h => hc h.symm), hd]
      exact hold0
    · show ModelZoo.lookupA key
        (ModelZoo.updateA key value data) = some value
      rw [ModelZoo.lookupA_updateA_self]
    · show ModelZoo.lookupA f (ModelZoo.updateA f
        (sz + (weightSize value - weightSize old))
        (flush s).file_size) = some _
      rw [ModelZoo.lookupA_updateA_self]
    · show (if sz + (weightSize value - weightSize old)
          > (flush s).max_shard_size then (flush s).warnings + 1
          else (flush s).warnings) = _
      rw [hmax, hwarn]
  · have hfa : s.active_file_name = f := not_ne_iff.mp hc
    have hmem := hinv.data_active key (by rw [hfa]; exact hmap)
    cases hold0 : ModelZoo.lookupA key s.active_file_data with
    | none =>
      rw [hold0] at hmem
      exact absurd hmem (by simp)
    | some old =>
    have heq := setItem_update_eq s key value f s old sz hmap
      (by rw [if_neg hc]) hold0 (by rw [hfa]; exact hsz0)
    refine ⟨_, old, sz, heq, ?_, hfa, ?_, rfl, ?_, rfl⟩
    · rw [storedTensor, if_pos hfa.symm]
      exact hold0
    · show ModelZoo.lookupA key
        (ModelZoo.updateA key value s.active_file_data) = some value
      rw [ModelZoo.lookupA_updateA_self]
    · show ModelZoo.lookupA f (ModelZoo.updateA s.active_file_name
        (sz + (weightSize value - weightSize old)) s.file_size)
        = some _
      rw [hfa, ModelZoo.lookupA_updateA_self]

end ModelZoo.Streaming

namespace ModelZoo.Streaming

/-- The writer state after a single `__setitem__` of a 60-byte tensor
under key a on a fresh writer with a 100-byte shard limit. -/
def sampleInsert1 : WriterState :=
  { disk := [], index_file := none,
    weight_map := [("a", ((0, 0) : FileId))],
    current_file_number := 0, last_file_number := 0,
    total_shards_finalized := 0,
    active_file_name := (0, 0),
    active_file_data := [("a", ⟨60, 8⟩)],
    file_size := [(((0, 0) : FileId), (60 : Int))],
    dirty := true, max_shard_size := 100, warnings := 0 }

/-- The writer state obtained by calling save() on `sampleInsert1`. -/
def sampleSaved : WriterState :=
  { disk := [(((0, 1) : FileId), [("a", ⟨60, 8⟩)])],
    index_file := some ⟨60, [("a", ((0, 1) : FileId))]⟩,
    weight_map := [("a", ((0, 1) : FileId))],
    current_file_number := 0, last_file_number := 0,
    total_shards_finalized := 1,
    active_file_name := (0, 0),
    active_file_data := [("a", ⟨60, 8⟩)],
    file_size := [(((0, 1) : FileId), (60 : Int))],
    dirty := false, max_shard_size := 100, warnings := 0 }

theorem manifest_consistency_witness :
    ∃ m : Manifest, sampleSaved.index_file = some m ∧
      m.total_size = (sampleSaved.file_size.map (fun kv => kv.2)).sum ∧
      m.weight_map = sampleSaved.weight_map ∧
      (∀ k f, ModelZoo.lookupA k m.weight_map = some f →
        (ModelZoo.lookupA f sampleSaved.disk).isSome ∧
        f.2 = sampleSaved.total_shards_finalized ∧
        f.1 + 1 ≤ sampleSaved.total_shards_finalized) ∧
      save sampleSaved = .ok sampleSaved :=
  manifest_consistency sampleInsert1 sampleSaved
    (Reach.set (emptyState 100) "a" ⟨60, 8⟩ sampleInsert1
      (Reach.init (.int 100) (emptyState 100) rfl) rfl)
    rfl

theorem update_overrun_nonfatal_witness :
    ∃ (s2 : WriterState) (old : Tensor) (sz : Int),
      setItem sampleInsert1 "a" ⟨200, 8⟩ = .ok s2 ∧
      storedTensor sampleInsert1 ((0, 0) : FileId) "a" = some old ∧
      s2.active_file_name = (0, 0) ∧
      ModelZoo.lookupA "a" s2.active_file_data = some ⟨200, 8⟩ ∧
      ModelZoo.lookupA ((0, 0) : FileId) sampleInsert1.file_size
        = some sz ∧
      ModelZoo.lookupA ((0, 0) : FileId) s2.file_size
        = some (sz + (weightSize ⟨200, 8⟩ - weightSize old)) ∧
      s2.warnings = (if sz + (weightSize ⟨200, 8⟩ - weightSize old)
          > sampleInsert1.max_shard_size then sampleInsert1.warnings + 1
          else sampleInsert1.warnings) :=
  update_overrun_nonfatal sampleInsert1 "a" ⟨200, 8⟩ (0, 0)
    (Reach.set (emptyState 100) "a" ⟨60, 8⟩ sampleInsert1
      (Reach.init (.int 100) (emptyState 100) rfl) rfl)
    rfl

end ModelZoo.Streaming

namespace ModelZoo.Streaming

/-- A sequence of `__setitem__` calls, one per list entry. -/
def insertRun (s : WriterState) (items : List (String × Tensor)) :
    Except String WriterState :=
  items.foldlM (fun s kv => setItem s kv.1 kv.2) s

/-- Invariant of writer states reached from a fresh writer by inserts
of pairwise-distinct new keys only (no save, no updates). -/
structure InsOnly (s : WriterState) : Prop where
  cur_last : s.current_file_number = s.last_file_number
  total0 : s.total_shards_finalized = 0
  active_eq : s.active_file_name = (s.last_file_number, 0)
  fs_keys : ∀ f : FileId, (ModelZoo.lookupA f s.file_size).isSome ↔
    (f.1 ≤ s.last_file_number ∧ f.2 = 0)
  wm_mem : ∀ kv ∈ s.weight_map,
    kv.2.1 ≤ s.last_file_number ∧ kv.2.2 = 0
  size_ok : ∀ f sz, ModelZoo.lookupA f s.file_size = some sz →
    sz ≤ s.max_shard_size ∨
      ((s.weight_map.filter fun kv => decide (kv.2 = f)).length = 1 ∧
        s.max_shard_size < sz)

theorem insOnly_init (max : Int) (hmax : 0 ≤ max) :
    InsOnly (emptyState max) := by
  refine ⟨rfl, rfl, rfl, ?_, ?_, ?_⟩
  · intro f
    obtain ⟨a, b⟩ := f
    show (ModelZoo.lookupA ((a, b) : FileId)
      [((get_filename 0 0 : FileId), (0 : Int))]).isSome ↔
      a ≤ 0 ∧ b = 0
    rw [ModelZoo.lookupA]
    by_cases he : (get_filename 0 0 : FileId) = (a, b)
    · rw [if_pos he]
      have h1 : 0 = a := congrArg Prod.fst he
      have h2 : 0 = b := congrArg Prod.snd he
      constructor
      · intro _
        omega
      · intro _
        rfl
    · rw [if_neg he]
      constructor
      · intro h
        exact absurd h (by simp [ModelZoo.lookupA])
      · intro ⟨h1, h2⟩
        exfalso
        apply he
        have ha : a = 0 := Nat.le_zero.mp h1
        subst ha
        subst h2
        rfl
  · intro kv hkv
    have hkv2 : kv ∈ ([] : List (String × FileId)) := hkv
    exact absurd hkv2 (by simp)
  · intro f sz h
    show sz ≤ max ∨ _
    have h2 : ModelZoo.lookupA f
        [((get_filename 0 0 : FileId), (0 : Int))] = some sz := h
    rw [ModelZoo.lookupA] at h2
    by_cases he : (get_filename 0 0 : FileId) = f
    · rw [if_pos he] at h2
      have h0 : sz = 0 := (Option.some.inj h2).symm
      rw [h0]
      exact Or.inl hmax
    · rw [if_neg he] at h2
      exact absurd h2 (by simp [ModelZoo.lookupA])

end ModelZoo.Streaming

namespace ModelZoo.Streaming

theorem insOnly_setItem (s : WriterState) (key : String)
    (value : Tensor) (s2 : WriterState) (hJ : InsOnly s)
    (hfresh : ModelZoo.lookupA key s.weight_map = none)
    (hok : setItem s key value = .ok s2) :
    InsOnly s2 ∧ s2.max_shard_size = s.max_shard_size ∧
      ∀ k2, k2 ≠ key →
        ModelZoo.lookupA k2 s2.weight_map
          = ModelZoo.lookupA k2 s.weight_map := by
  obtain ⟨hwmF, hfsF, hanF, hadF, hcurF, hlastF, htotF, hmaxF, hwarnF,
    hidxF, hdirtyF⟩ := flush_fields s
  simp only [setItem] at hok
  split at hok
  · rename_i file hmapx
    rw [hfresh] at hmapx
    exact absurd hmapx (by simp)
  · rw [if_neg (fun h => h hJ.cur_last)] at hok
    simp only [Bind.bind, Except.bind] at hok
    split at hok
    · exact Except.noConfusion hok
    · rename_i sz hsz
      split at hok
      · exact Except.noConfusion hok
      · rename_i sz2 hsz2
        have hs2 := Except.ok.inj hok
        subst hs2
        by_cases hover : sz + weightSize value > s.max_shard_size
        · -- the new weight tips the active shard over: fresh shard
          rw [if_pos hover] at hsz2 ⊢
          have hsz2b : ModelZoo.lookupA
              (get_filename ((flush s).last_file_number + 1)
                (flush s).total_shards_finalized)
              (ModelZoo.updateA
                (get_filename ((flush s).last_file_number + 1)
                  (flush s).total_shards_finalized) 0
                (flush s).file_size) = some sz2 := hsz2
          rw [ModelZoo.lookupA_updateA_self] at hsz2b
          have hsz20 : sz2 = 0 := (Option.some.inj hsz2b).symm
          subst hsz20
          have hfreshF : ModelZoo.lookupA key (flush s).weight_map
              = none := by
            rw [hwmF]
            exact hfresh
          have happ2 := ModelZoo.updateA_eq_append key
            (get_filename ((flush s).last_file_number + 1)
              (flush s).total_shards_finalized)
            (flush s).weight_map hfreshF
          have htot0 : (flush s).total_shards_finalized = 0 := by
            rw [htotF]
            exact hJ.total0
          have hFkeys : ∀ g : FileId,
              (ModelZoo.lookupA g (flush s).file_size).isSome ↔
              (g.1 ≤ s.last_file_number ∧ g.2 = 0) := by
            intro g
            rw [hfsF]
            exact hJ.fs_keys g
          refine ⟨⟨rfl, htot0, ?_, ?_, ?_, ?_⟩, hmaxF, ?_⟩
          · show get_filename ((flush s).last_file_number + 1)
              (flush s).total_shards_finalized
              = ((flush s).last_file_number + 1, 0)
            rw [htot0]
            rfl
          · intro f
            obtain ⟨a, b⟩ := f
            show (ModelZoo.lookupA ((a, b) : FileId)
              (ModelZoo.updateA _ (0 + weightSize value)
                (ModelZoo.updateA _ 0 (flush s).file_size))).isSome ↔
              a ≤ (flush s).last_file_number + 1 ∧ b = 0
            rw [ModelZoo.lookupA_updateA_isSome,
              ModelZoo.lookupA_updateA_isSome]
            have h4 := hlastF
            constructor
            · rintro (h | h | h)
              · have h1 : a = (flush s).last_file_number + 1 :=
                  congrArg Prod.fst h
                have h2 : b = (flush s).total_shards_finalized :=
                  congrArg Prod.snd h
                omega
              · have h1 : a = (flush s).last_file_number + 1 :=
                  congrArg Prod.fst h
                have h2 : b = (flush s).total_shards_finalized :=
                  congrArg Prod.snd h
                omega
              · have := (hFkeys (a, b)).mp h
                omega
            · intro ⟨h1, h2⟩
              by_cases hl : a = (flush s).last_file_number + 1
              · refine Or.inl ?_
                show ((a, b) : FileId) = get_filename
                  ((flush s).last_file_number + 1)
                  (flush s).total_shards_finalized
                rw [hl, h2, htot0]
                rfl
              · refine Or.inr (Or.inr ((hFkeys (a, b)).mpr ?_))
                exact ⟨by omega, h2⟩
          · intro kv hkv
            rw [happ2] at hkv
            rcases List.mem_append.mp hkv with h | h
            · have h5 : kv ∈ s.weight_map := by
                rw [← hwmF]
                exact h
              have h6 := hJ.wm_mem kv h5
              have h4 := hlastF
              show kv.2.1 ≤ (flush s).last_file_number + 1 ∧ kv.2.2 = 0
              omega
            · have Hkv : kv = (key, get_filename
                  ((flush s).last_file_number + 1)
                  (flush s).total_shards_finalized) := by
                simpa using h
              rw [Hkv]
              exact ⟨Nat.le_refl _, htot0⟩
          · intro f sz3 hlook
            show sz3 ≤ (flush s).max_shard_size ∨ _
            by_cases hfa : f = get_filename
                ((flush s).last_file_number + 1)
                (flush s).total_shards_finalized
            · rw [hfa, ModelZoo.lookupA_updateA_self] at hlook
              rcases le_or_lt sz3 ((flush s).max_shard_size)
                with h | h
              · exact Or.inl h
              · refine Or.inr ⟨?_, h⟩
                rw [happ2, List.filter_append]
                have hnil : ((flush s).weight_map.filter
                    fun kv => decide (kv.2 = f)) = [] := by
                  rw [List.filter_eq_nil_iff]
                  intro kv hkv hp
                  have hkv2 : kv.2 = f := of_decide_eq_true hp
                  have h5 : kv ∈ s.weight_map := by
                    rw [← hwmF]
                    exact hkv
                  have h6 := hJ.wm_mem kv h5
                  have h7 : kv.2.1 = (flush s).last_file_number + 1 := by
                    rw [hkv2, hfa]
                    rfl
                  have h4 := hlastF
                  omega
                rw [hnil, List.nil_append, List.filter_cons,
                  if_pos (decide_eq_true hfa.symm)]
                rfl
            · rw [ModelZoo.lookupA_updateA_ne _ _ _ hfa,
                ModelZoo.lookupA_updateA_ne _ _ _ hfa] at hlook
              have hlook2 : ModelZoo.lookupA f s.file_size
                  = some sz3 := by
                rw [← hfsF]
                exact hlook
              rcases hJ.size_ok f sz3 hlook2 with h | ⟨hcount, hbig⟩
              · exact Or.inl (by rw [hmaxF]; exact h)
              · refine Or.inr ⟨?_, by rw [hmaxF]; exact hbig⟩
                rw [happ2, List.filter_append]
                have h0 : (([(key, get_filename
                    ((flush s).last_file_number + 1)
                    (flush s).total_shards_finalized)] :
                    List (String × FileId)).filter
                    fun kv => decide (kv.2 = f)) = [] := by
                  rw [List.filter_cons,
                    if_neg (fun h => hfa (of_decide_eq_true h).symm)]
                  rfl
                rw [h0, List.append_nil, hwmF]
                exact hcount
          · intro k2 hk2
            show ModelZoo.lookupA k2 (ModelZoo.updateA key _
              (flush s).weight_map) = _
            rw [ModelZoo.lookupA_updateA_ne _ _ _ hk2, hwmF]
        · -- the new weight fits in the active shard
          rw [if_neg hover] at hsz2 ⊢
          have hszeq : sz2 = sz := Option.some.inj (hsz2.symm.trans hsz)
          subst hszeq
          have happ := ModelZoo.updateA_eq_append key
            s.active_file_name s.weight_map hfresh
          refine ⟨⟨hJ.cur_last, hJ.total0, hJ.active_eq, ?_, ?_, ?_⟩,
            rfl, ?_⟩
          · intro f
            show (ModelZoo.lookupA f (ModelZoo.updateA
              s.active_file_name (sz2 + weightSize value)
              s.file_size)).isSome ↔
              f.1 ≤ s.last_file_number ∧ f.2 = 0
            rw [ModelZoo.lookupA_updateA_isSome]
            constructor
            · rintro (h | h)
              · rw [h]
                exact (hJ.fs_keys s.active_file_name).mp
                  (by rw [hsz2]; rfl)
              · exact (hJ.fs_keys f).mp h
            · intro h
              exact Or.inr ((hJ.fs_keys f).mpr h)
          · intro kv hkv
            rw [happ] at hkv
            rcases List.mem_append.mp hkv with h | h
            · exact hJ.wm_mem kv h
            · have Hkv : kv = (key, s.active_file_name) := by
                simpa using h
              rw [Hkv, hJ.active_eq]
              exact ⟨Nat.le_refl _, rfl⟩
          · intro f sz3 hlook
            show sz3 ≤ s.max_shard_size ∨ _
            by_cases hfa : f = s.active_file_name
            · rw [hfa, ModelZoo.lookupA_updateA_self] at hlook
              have h1 : sz3 = sz2 + weightSize value :=
                (Option.some.inj hlook).symm
              rw [h1]
              exact Or.inl (not_lt.mp hover)
            · rw [ModelZoo.lookupA_updateA_ne _ _ _ hfa] at hlook
              rcases hJ.size_ok f sz3 hlook with h | ⟨hcount, hbig⟩
              · exact Or.inl h
              · refine Or.inr ⟨?_, hbig⟩
                rw [happ, List.filter_append]
                have h0 : (([(key, s.active_file_name)] :
                    List (String × FileId)).filter
                    fun kv => decide (kv.2 = f)) = [] := by
                  rw [List.filter_cons,
                    if_neg (fun h => hfa (of_decide_eq_true h).symm)]
                  rfl
                rw [h0, List.append_nil]
                exact hcount
          · intro k2 hk2
            show ModelZoo.lookupA k2 (ModelZoo.updateA key
              s.active_file_name s.weight_map) = _
            rw [ModelZoo.lookupA_updateA_ne _ _ _ hk2]

end ModelZoo.Streaming

namespace ModelZoo.Streaming

theorem insertRun_insOnly :
    ∀ (items : List (String × Tensor)) (s s2 : WriterState),
      InsOnly s →
      (∀ kv ∈ items, ModelZoo.lookupA kv.1 s.weight_map = none) →
      (items.map Prod.fst).Nodup →
      insertRun s items = .ok s2 → InsOnly s2 := by
  intro items
  induction items with
  | nil =>
    intro s s2 hJ _ _ hok
    have h := Except.ok.inj hok
    rw [← h]
    exact hJ
  | cons kv rest ih =>
    intro s s2 hJ hfresh hnodup hok
    rw [insertRun, List.foldlM_cons] at hok
    cases hstep : setItem s kv.1 kv.2 with
    | error e =>
      rw [hstep] at hok
      exact Except.noConfusion
        (show Except.error e = Except.ok s2 from hok)
    | ok s1 =>
      rw [hstep] at hok
      simp only [Bind.bind, Except.bind] at hok
      obtain ⟨hJ1, hmax1, hwm1⟩ := insOnly_setItem s kv.1 kv.2 s1 hJ
        (hfresh kv (by simp)) hstep
      rw [List.map_cons, List.nodup_cons] at hnodup
      refine ih s1 s2 hJ1 ?_ hnodup.2 hok
      intro kv2 hkv2
      rw [hwm1 kv2.1 (fun heq => hnodup.1
        (heq ▸ List.mem_map_of_mem Prod.fst hkv2))]
      exact hfresh kv2 (List.mem_cons.mpr (Or.inr hkv2))

/-- The writer state after inserting a 60-byte tensor under key a and
then a 50-byte tensor under key b on a fresh writer with a 100-byte
shard limit: the second insert spills into a fresh second shard. -/
def sampleInsert2 : WriterState :=
  { disk := [(((0, 0) : FileId), [("a", ⟨60, 8⟩)])], index_file := none,
    weight_map := [("a", (0, 0)), ("b", (1, 0))],
    current_file_number := 1, last_file_number := 1,
    total_shards_finalized := 0,
    active_file_name := (1, 0),
    active_file_data := [("b", ⟨50, 8⟩)],
    file_size := [(((0, 0) : FileId), (60 : Int)),
      (((1, 0) : FileId), (50 : Int))],
    dirty := true, max_shard_size := 100, warnings := 0 }

/-- C3 (amended): for a writer created with a nonnegative shard-size
limit, after any sequence of __setitem__ calls with pairwise-distinct
keys, every tracked shard size is at most the limit except for a shard
whose single tensor alone exceeds it; and with a 100-byte limit,
inserting a 60-byte and then a 50-byte tensor yields exactly the two
shards of `sampleInsert2` (60 and 50 bytes).  With a negative integer
limit the claim fails: the initial shard stays empty at tracked size 0,
above the limit, holding no tensor at all. -/
theorem shard_size_invariant :
    (∀ (shard_size : SizeArg) (s0 : WriterState)
        (items : List (String × Tensor)) (s2 : WriterState),
      initWriter shard_size = .ok s0 →
      0 ≤ s0.max_shard_size →
      (items.map Prod.fst).Nodup →
      insertRun s0 items = .ok s2 →
      ∀ f sz, ModelZoo.lookupA f s2.file_size = some sz →
        sz ≤ s2.max_shard_size ∨
          ((s2.weight_map.filter fun kv => decide (kv.2 = f)).length
              = 1 ∧
            s2.max_shard_size < sz)) ∧
    insertRun (emptyState 100) [("a", ⟨60, 8⟩), ("b", ⟨50, 8⟩)]
      = .ok sampleInsert2 := by
  constructor
  · intro shard_size s0 items s2 hinit hmax hnodup hok f sz hlook
    obtain ⟨max, hconv, hs0⟩ := initWriter_ok shard_size s0 hinit
    subst hs0
    have hJ := insertRun_insOnly items (emptyState max) s2
      (insOnly_init max hmax) (fun kv _ => rfl) hnodup hok
    exact hJ.size_ok f sz hlook
  · rfl

/-- C3 counterexample to the unrestricted claim: with a negative
configured limit and no inserts at all, the initial shard has tracked
size 0, which exceeds the limit, while holding no tensor (so it is not
a single oversized tensor). -/
theorem shard_size_invariant_counterexample :
    initWriter (.int (-1)) = .ok (emptyState (-1)) ∧
      insertRun (emptyState (-1)) [] = .ok (emptyState (-1)) ∧
      ModelZoo.lookupA ((0, 0) : FileId) (emptyState (-1)).file_size
        = some 0 ∧
      ¬((0 : Int) ≤ (emptyState (-1)).max_shard_size) ∧
      (((emptyState (-1)).weight_map.filter
        fun kv => decide (kv.2 = ((0, 0) : FileId))).length = 0) :=
  ⟨rfl, rfl, rfl, by decide, rfl⟩

theorem shard_size_invariant_witness :
    (60 : Int) ≤ sampleInsert2.max_shard_size ∨
      ((sampleInsert2.weight_map.filter
        fun kv => decide (kv.2 = ((0, 0) : FileId))).length = 1 ∧
        sampleInsert2.max_shard_size < 60) :=
  shard_size_invariant.1 (.int 100) (emptyState 100)
    [("a", ⟨60, 8⟩), ("b", ⟨50, 8⟩)] sampleInsert2 rfl (by decide)
    (by decide) shard_size_invariant.2 ((0, 0) : FileId) 60 rfl

end ModelZoo.Streaming
